import Mathlib

/-!
# Verification of the shape-polymorphic aggregator of `mylib_typescript`

Shallow embedding of the group-by / count-by engine of `src/lib/utils.ts`
(`countByWithMap`, `countByWithObj`, `groupByWithMap`, `groupByWithObj`)
together with the two call-control helpers `justOnce` and `cut`.

Modelling conventions:
* a JS `Array` is a `List`;
* a JS `Set` is the `List` of its elements in iteration order (element
  distinctness is an invariant of the runtime container, taken as a
  hypothesis where a statement needs it);
* a JS `Map` is the `List` of its `(key, value)` entries in insertion
  order (key distinctness likewise a hypothesis); `Map.set` updates an
  existing key in place and appends a fresh key;
* a plain JS object ("record") is the `List` of its `(property, value)`
  entries in **enumeration order**: array-index-like properties first in
  ascending numeric order, then the remaining string properties in
  insertion order.  Property assignment updates an existing property in
  place; a fresh array-index-like property is inserted into the numeric
  prefix, any other fresh property is appended.
* callbacks that may throw are modelled in `Except`; `undefined` returned
  by a wrapper is `Option.none`.
-/

namespace Mylib

/-! ## JS property-key arithmetic (record / plain-object semantics) -/

/-- Decimal digit character. -/
def digitChar (d : Nat) : Char := Char.ofNat (48 + d)

/-- Canonical decimal digit list of a natural number (fuelled division
recursion; the fuel `n + 1` always suffices). -/
def natDigitsAux : Nat → Nat → List Char
  | 0, _ => []
  | fuel + 1, n =>
    if n < 10 then [digitChar n] else natDigitsAux fuel (n / 10) ++ [digitChar (n % 10)]

def natDigits (n : Nat) : List Char := natDigitsAux (n + 1) n

/-- Numeric value of an all-digit property key (garbage on other keys,
which is only ever used under an `isArrayIndex` guard). -/
def keyNat (s : String) : Nat := s.data.foldl (fun n c => n * 10 + (c.toNat - 48)) 0

/-- ECMAScript array-index property: the canonical decimal string of an
integer in `[0, 2^32 - 2]` (characterised by the print/parse round trip). -/
def isArrayIndex (s : String) : Bool :=
  decide (natDigits (keyNat s) = s.data) && decide (keyNat s < 4294967295)

/-- Enumeration precedence of JS property keys: `a` is listed before `b`
whenever `a` is an array index and `b` is not, or both are array indices
and `a` is numerically smaller. -/
def jsKeyLt (a b : String) : Bool :=
  (isArrayIndex a && !isArrayIndex b) ||
    (isArrayIndex a && isArrayIndex b && decide (keyNat a < keyNat b))

/-- A list of entries is in JS enumeration order: no later key precedes an
earlier one. -/
abbrev JsCanonical {β : Type} (l : List (String × β)) : Prop :=
  l.Pairwise fun a b => jsKeyLt b.1 a.1 = false

/-- Insert a fresh array-index entry into the ascending numeric prefix of a
record's entry list (where a JS engine enumerates it). -/
def insertIntKey {β : Type} : List (String × β) → String × β → List (String × β)
  | [], kv => [kv]
  | (k', v') :: rest, kv =>
    if isArrayIndex k' && decide (keyNat k' < keyNat kv.1) then
      (k', v') :: insertIntKey rest kv
    else
      kv :: (k', v') :: rest

/-- Add a fresh property to a record's entry list at the position where JS
enumeration will list it. -/
def objInsertNew {β : Type} (o : List (String × β)) (kv : String × β) : List (String × β) :=
  if isArrayIndex kv.1 then insertIntKey o kv else o ++ [kv]

/-- Does an entry list have the given string key? -/
def hasKeyStr {β : Type} (o : List (String × β)) (k : String) : Bool :=
  o.any fun e => e.1 = k

/-- Update the (first) entry with the given key in place. -/
def updateStr {β : Type} (o : List (String × β)) (k : String) (f : β → β) : List (String × β) :=
  match o with
  | [] => []
  | (k', v') :: rest =>
    if k' = k then (k', f v') :: rest else (k', v') :: updateStr rest k f

/-- The own property keys of `Object.prototype` that are **data**
properties (all functions): a fresh `{}` inherits them, so reading them
never yields `undefined`, and assigning to them shadow-creates an own
property. -/
def protoDataKeys : List String :=
  ["constructor", "hasOwnProperty", "isPrototypeOf", "propertyIsEnumerable",
   "toLocaleString", "toString", "valueOf",
   "__defineGetter__", "__defineSetter__", "__lookupGetter__", "__lookupSetter__"]

def isProtoDataKey (k : String) : Bool := k ∈ protoDataKeys

/-- Keys at which a fresh `{}` inherits a non-`undefined` member from
`Object.prototype`: the data members above plus the `__proto__` accessor
(whose getter returns the prototype object, and whose setter swallows
assignments without ever creating an own property). -/
def isProtoKey (k : String) : Bool := isProtoDataKey k || k = "__proto__"

/-- Stand-in for the engine-defined `ToPrimitive` string of the inherited
member at `k` (e.g. `"function toString() { [native code] }"`); its exact
text is engine-dependent and no statement below depends on it — only that
adding a number to the inherited function yields a string. -/
def protoStrVal (k : String) : String := "[native " ++ k ++ "]"

/-- JS property write `o[k] = v` on a plain record: update an own property
in place; on a fresh key, `[[Set]]` walks the prototype chain, so for
`k = "__proto__"` the inherited **setter** runs (setting the record's
[[Prototype]] when `v` is an object, a silent no-op otherwise) and **no own
entry is ever created**; any other fresh key — including inherited data
keys like `"toString"`, which are shadowed — creates an own property at
its enumeration position. -/
def objSetProp {β : Type} (o : List (String × β)) (kv : String × β) : List (String × β) :=
  if hasKeyStr o kv.1 then updateStr o kv.1 (fun _ => kv.2)
  else if kv.1 = "__proto__" then o
  else objInsertNew o kv

/-! ## JS `Map` / `Set` primitive operations -/

/-- `Map.set k v` on an entry list: replace the value of an existing key in
place, append a fresh key. -/
def mapSetPair {α : Type} [DecidableEq α] (m : List (α × α)) (kv : α × α) : List (α × α) :=
  match m with
  | [] => [kv]
  | (k', v') :: rest =>
    if k' = kv.1 then (k', kv.2) :: rest else (k', v') :: mapSetPair rest kv

/-- `Set.add v`: append if not already a member. -/
def setAdd {α : Type} [DecidableEq α] (s : List α) (v : α) : List α :=
  if v ∈ s then s else s ++ [v]

/-! ## The source container and the per-element callback arguments -/

/-- The four container variants dispatched on by the aggregator
(`struct instanceof Array / Set / Map`, `isObject(struct)`), with one
element type `α` for sequence elements, set elements, map keys and map
values, and `String` record keys.  A `rec` value carries its entries in
JS enumeration order (see `JsCanonical`). -/
inductive Struct (α : Type) : Type where
  | arr (elts : List α)
  | set (elts : List α)
  | map (entries : List (α × α))
  | record (entries : List (String × α))
deriving DecidableEq

/-- Variant tag of a container. -/
inductive StructTag : Type where
  | arr | set | map | record
deriving DecidableEq

def Struct.tag {α : Type} : Struct α → StructTag
  | .arr _ => .arr
  | .set _ => .set
  | .map _ => .map
  | .record _ => .record

/-- Number of elements traversed (for a record, its enumerable entries). -/
def Struct.size {α : Type} : Struct α → Nat
  | .arr l => l.length
  | .set l => l.length
  | .map l => l.length
  | .record l => l.length

/-- Sequence/set elements of a container (empty for map/record). -/
def Struct.seqElts {α : Type} : Struct α → List α
  | .arr l => l
  | .set l => l
  | .map _ => []
  | .record _ => []

/-- Map entries of a container. -/
def Struct.mapElts {α : Type} : Struct α → List (α × α)
  | .map l => l
  | _ => []

/-- Record entries of a container. -/
def Struct.recElts {α : Type} : Struct α → List (String × α)
  | .record l => l
  | _ => []

/-- What `fn(...args)` receives for one element, per container variant:
`Array.forEach` supplies `(value, index, array)`, `Set.forEach` supplies
`(value, value, set)`, `Map.forEach` supplies `(value, key, map)`, and a
record is first converted by `Object.entries` to an array of `[key, value]`
pairs, whose `forEach` supplies `(pair, index, array)`.  The constant
third argument is omitted.  `mapPairElt` is not produced by the code
model; it is the unit which the specification text claims is handed to
the classifier for a `Map` source, used only by `structArgsSpec`. -/
inductive EltArg (α : Type) : Type where
  | arrElt (v : α) (idx : Nat)
  | setElt (v : α)
  | mapElt (v k : α)
  | entryElt (k : String) (v : α) (idx : Nat)
  | mapPairElt (k v : α)
deriving DecidableEq

/-- The sequence of argument tuples fed to the classifier while the code
traverses a container (`struct.forEach((...args) => ...)`, after the
`Object.entries` conversion for records). -/
def structArgs {α : Type} : Struct α → List (EltArg α)
  | .arr l => l.enum.map fun iv => .arrElt iv.2 iv.1
  | .set l => l.map fun v => .setElt v
  | .map l => l.map fun kv => .mapElt kv.2 kv.1
  | .record l => l.enum.map fun ikv => .entryElt ikv.2.1 ikv.2.2 ikv.1

/-- Modelled from the spec: the argument sequence the specification claims
(`[key, value]` pair for `Map` sources, in that fixed order); differs from
`structArgs` only on the `map` variant. -/
def structArgsSpec {α : Type} : Struct α → List (EltArg α)
  | .arr l => l.enum.map fun iv => .arrElt iv.2 iv.1
  | .set l => l.map fun v => .setElt v
  | .map l => l.map fun kv => .mapPairElt kv.1 kv.2
  | .record l => l.enum.map fun ikv => .entryElt ikv.2.1 ikv.2.2 ikv.1

/-! ## count-by -/

/-- One iteration of `countByWithMap`'s loop body on the result map:
`ret.get(key) !== undefined ? ret.set(key, ret.get(key) + 1) : ret.set(key, 1)`. -/
def bumpCount {κ : Type} [DecidableEq κ] (ret : List (κ × Nat)) (k : κ) : List (κ × Nat) :=
  match ret with
  | [] => [(k, 1)]
  | (k', c) :: rest =>
    if k' = k then (k', c + 1) :: rest else (k', c) :: bumpCount rest k

/-- `countByWithMap` (src/lib/utils.ts:567-577): fold the traversal,
counting per classifier key in a fresh `Map`. -/
def countByWithMap {α κ : Type} [DecidableEq κ] (struct : Struct α) (fn : EltArg α → κ) :
    List (κ × Nat) :=
  (structArgs struct).foldl (fun ret a => bumpCount ret (fn a)) []

/-- A value stored in a plain-record count result: a number count, or the
string produced when `+= 1` concatenates onto an inherited
`Object.prototype` function. -/
inductive JsVal : Type where
  | num (n : Nat)
  | str (s : String)
deriving DecidableEq

/-- JS `x + 1`: numeric increment on a number, concatenation of `"1"` on a
string. -/
def jsAdd1 : JsVal → JsVal
  | .num n => .num (n + 1)
  | .str s => .str (s ++ "1")

/-- One iteration of `countByWithObj`'s loop body:
`ret[key] !== undefined ? ret[key] += 1 : ret[key] = 1`.  The guard reads
through the prototype chain, so it is `true` for own keys **and** for
inherited `Object.prototype` members: for an own key `+= 1` updates the
stored value in place; for an inherited data key (e.g. `"toString"`) the
first `+= 1` reads the inherited function, concatenates `1` into a string
and shadow-creates an own property holding it; for `"__proto__"` the
write runs the inherited setter with a primitive and stores nothing, every
time.  Only a key with no own or inherited binding takes the `= 1`
branch. -/
def bumpCountObj (ret : List (String × JsVal)) (k : String) : List (String × JsVal) :=
  if hasKeyStr ret k then updateStr ret k jsAdd1
  else if isProtoKey k then
    (if k = "__proto__" then ret else objInsertNew ret (k, .str (protoStrVal k ++ "1")))
  else objInsertNew ret (k, .num 1)

/-- `countByWithObj` (src/lib/utils.ts:587-597): as `countByWithMap` but the
result is a plain record; the classifier is composed with the JS
property-key coercion, so it is modelled as `String`-valued. -/
def countByWithObj {α : Type} (struct : Struct α) (fn : EltArg α → String) :
    List (String × JsVal) :=
  (structArgs struct).foldl (fun ret a => bumpCountObj ret (fn a)) []

/-- Modelled from the spec: `countByWithMap` with the classifier receiving
the unit the specification describes (`structArgsSpec`). -/
def countByWithMapSpecArgs {α κ : Type} [DecidableEq κ] (struct : Struct α)
    (fn : EltArg α → κ) : List (κ × Nat) :=
  (structArgsSpec struct).foldl (fun ret a => bumpCount ret (fn a)) []

/-- First-occurrence order of the distinct values of a list (the order in
which a JS `Map` would acquire its keys). -/
def firstOccurAux {κ : Type} [DecidableEq κ] (seen : List κ) : List κ → List κ
  | [] => []
  | k :: ks => if k ∈ seen then firstOccurAux seen ks else k :: firstOccurAux (seen ++ [k]) ks

def firstOccurrences {κ : Type} [DecidableEq κ] (ks : List κ) : List κ :=
  firstOccurAux [] ks

/-! ## group-by -/

/-- Does the result `Map` already have a bucket for `k`
(`ret.get(retKey) !== undefined`)? -/
def hasKeyK {κ B : Type} [DecidableEq κ] (ret : List (κ × B)) (k : κ) : Bool :=
  ret.any fun e => e.1 = k

/-- Mutate the bucket stored under `k` in place. -/
def assocUpdate {κ B : Type} [DecidableEq κ] (ret : List (κ × B)) (k : κ) (f : B → B) :
    List (κ × B) :=
  match ret with
  | [] => []
  | (k', b) :: rest =>
    if k' = k then (k', f b) :: rest else (k', b) :: assocUpdate rest k f

/-- One loop iteration of group-by on a `Map` result: insert the projected
value `v` into the existing bucket for `k`, or create a fresh singleton
bucket (appended, since `Map.set` appends fresh keys). -/
def groupStep {κ B μ : Type} [DecidableEq κ] (ins : B → μ → B) (mk : μ → B)
    (ret : List (κ × B)) (kv : κ × μ) : List (κ × B) :=
  if hasKeyK ret kv.1 then assocUpdate ret kv.1 (fun b => ins b kv.2)
  else ret ++ [(kv.1, mk kv.2)]

/-- The group-by traversal: left fold of `groupStep` over the
(classifier key, projected value) items. -/
def groupItems {κ B μ : Type} [DecidableEq κ] (ins : B → μ → B) (mk : μ → B)
    (items : List (κ × μ)) (ret : List (κ × B)) : List (κ × B) :=
  items.foldl (groupStep ins mk) ret

/-- An exception escaping an aggregator call: one thrown by a user
callback, or a `TypeError` raised by the aggregator's own bucket
operation. -/
inductive JsErr (ε : Type) : Type where
  | user (e : ε)
  | typeErr
deriving DecidableEq

/-- Same loop but for a record result (`groupByWithObj`), whose
`ret[retKey] !== undefined` guard reads through the prototype chain: for
an own bucket key the bucket is updated in place; for an inherited
`Object.prototype` member the guard is still `true` and the bucket
operation runs on the **inherited** value — a method call
(`.push`/`.add`/`.set`, used for array/set/map sources: `protoThrows`)
throws a `TypeError`, while the record-source property write lands on the
inherited object and creates no own entry in `ret`; only a key with no
own or inherited binding creates a fresh bucket, via plain assignment, at
its JS enumeration position. -/
def groupStepObjE {B μ ε : Type} (protoThrows : Bool) (ins : B → μ → B) (mk : μ → B)
    (ret : List (String × B)) (kv : String × μ) :
    Except (JsErr ε) (List (String × B)) :=
  if hasKeyStr ret kv.1 then .ok (updateStr ret kv.1 fun b => ins b kv.2)
  else if isProtoKey kv.1 then
    (if protoThrows then .error .typeErr else .ok ret)
  else .ok (objInsertNew ret (kv.1, mk kv.2))

def groupItemsObjE {B μ ε : Type} (protoThrows : Bool) (ins : B → μ → B) (mk : μ → B) :
    List (String × μ) → List (String × B) → Except (JsErr ε) (List (String × B))
  | [], ret => .ok ret
  | kv :: xs, ret =>
    match groupStepObjE protoThrows ins mk ret kv with
    | .error er => .error er
    | .ok ret' => groupItemsObjE protoThrows ins mk xs ret'

/-- The single optional `fnOnEltsGrouped` callback, given by its behaviour
on each of the argument shapes the code hands it: a bare value for
array/set sources, the reversed `[key, value]` pair for map sources, the
`[key, value]` entry for record sources.  The record case returns a
property key, modelling the JS property-key coercion of its first
component. -/
structure ProjFns (α : Type) : Type where
  onVal : α → α
  onMapPair : α × α → α × α
  onRecEntry : String × α → String × α

/-- The default projection `(x) => x`. -/
def idProj (α : Type) : ProjFns α := ⟨id, id, id⟩

/-- Per-variant items (classifier key, value to insert) for group-by:
`retKey = fn(...args)` first, then `val`/`finalVal` as in the source. -/
def arrItems {α κ : Type} (l : List α) (fn : EltArg α → κ) (pr : ProjFns α) :
    List (κ × α) :=
  l.enum.map fun iv => (fn (.arrElt iv.2 iv.1), pr.onVal iv.2)

def setItems {α κ : Type} (l : List α) (fn : EltArg α → κ) (pr : ProjFns α) :
    List (κ × α) :=
  l.map fun v => (fn (.setElt v), pr.onVal v)

def mapItems {α κ : Type} (l : List (α × α)) (fn : EltArg α → κ) (pr : ProjFns α) :
    List (κ × (α × α)) :=
  l.map fun kv => (fn (.mapElt kv.2 kv.1), pr.onMapPair (kv.1, kv.2))

def recItems {α κ : Type} (l : List (String × α)) (fn : EltArg α → κ) (pr : ProjFns α) :
    List (κ × (String × α)) :=
  l.enum.map fun ikv => (fn (.entryElt ikv.2.1 ikv.2.2 ikv.1), pr.onRecEntry ikv.2)

/-- `groupByWithMap` (src/lib/utils.ts:611-650): dispatch on the runtime
variant of `struct`; per element compute `retKey`, project the element,
and insert it into a bucket of the *same variant as the source*:
`push` for arrays, `Set.add` for sets, `Map.set` for maps (the reversed
`[key, value]` pair), property assignment for records. -/
def groupByWithMap {α κ : Type} [DecidableEq α] [DecidableEq κ]
    (struct : Struct α) (fn : EltArg α → κ) (pr : ProjFns α) : List (κ × Struct α) :=
  match struct with
  | .arr l =>
    (groupItems (fun b v => b ++ [v]) (fun v => [v]) (arrItems l fn pr) []).map
      fun e => (e.1, Struct.arr e.2)
  | .set l =>
    (groupItems setAdd (fun v => [v]) (setItems l fn pr) []).map
      fun e => (e.1, Struct.set e.2)
  | .map l =>
    (groupItems mapSetPair (fun kv => [kv]) (mapItems l fn pr) []).map
      fun e => (e.1, Struct.map e.2)
  | .record l =>
    (groupItems objSetProp (fun kv => [kv]) (recItems l fn pr) []).map
      fun e => (e.1, Struct.record e.2)

/-- `groupByWithObj` (src/lib/utils.ts:665-703): identical loop body but the
result is a plain record keyed by the property-key coercion of the
classifier result, so the bucket lookup/insert follows the prototype-chain
semantics of `groupStepObjE` and the call can end in a `TypeError` (pure
callbacks: the only exceptions are the aggregator's own, hence
`JsErr Empty`). -/
def groupByWithObj {α : Type} [DecidableEq α]
    (struct : Struct α) (fn : EltArg α → String) (pr : ProjFns α) :
    Except (JsErr Empty) (List (String × Struct α)) :=
  match struct with
  | .arr l =>
    (groupItemsObjE true (fun b v => b ++ [v]) (fun v => [v]) (arrItems l fn pr) []).map
      fun r => r.map fun e => (e.1, Struct.arr e.2)
  | .set l =>
    (groupItemsObjE true setAdd (fun v => [v]) (setItems l fn pr) []).map
      fun r => r.map fun e => (e.1, Struct.set e.2)
  | .map l =>
    (groupItemsObjE true mapSetPair (fun kv => [kv]) (mapItems l fn pr) []).map
      fun r => r.map fun e => (e.1, Struct.map e.2)
  | .record l =>
    (groupItemsObjE false objSetProp (fun kv => [kv]) (recItems l fn pr) []).map
      fun r => r.map fun e => (e.1, Struct.record e.2)

/-- Modelled from the spec: `groupByWithMap` whose classifier receives the
`[key, value]` pair for `Map` sources (everything else identical). -/
def mapItemsSpec {α κ : Type} (l : List (α × α)) (fn : EltArg α → κ) (pr : ProjFns α) :
    List (κ × (α × α)) :=
  l.map fun kv => (fn (.mapPairElt kv.1 kv.2), pr.onMapPair (kv.1, kv.2))

def groupByWithMapSpecArgs {α κ : Type} [DecidableEq α] [DecidableEq κ]
    (struct : Struct α) (fn : EltArg α → κ) (pr : ProjFns α) : List (κ × Struct α) :=
  match struct with
  | .arr l =>
    (groupItems (fun b v => b ++ [v]) (fun v => [v]) (arrItems l fn pr) []).map
      fun e => (e.1, Struct.arr e.2)
  | .set l =>
    (groupItems setAdd (fun v => [v]) (setItems l fn pr) []).map
      fun e => (e.1, Struct.set e.2)
  | .map l =>
    (groupItems mapSetPair (fun kv => [kv]) (mapItemsSpec l fn pr) []).map
      fun e => (e.1, Struct.map e.2)
  | .record l =>
    (groupItems objSetProp (fun kv => [kv]) (recItems l fn pr) []).map
      fun e => (e.1, Struct.record e.2)

/-! ## `cut` (src/lib/utils.ts:481-488)

`cut(limit, callback)` closes over `calls_finished = 0`; each call of the
returned function runs `calls_finished += 1; if (calls_finished === limit)
callback()`.  `cutRun limit k` runs the returned function `k` times from a
fresh closure and yields the final counter together with, per call, whether
that call invoked the callback. -/

def cutRunAux (limit : Nat) : Nat → Nat → Nat × List Bool
  | c, 0 => (c, [])
  | c, k + 1 =>
    let fired := decide (c + 1 = limit)
    let r := cutRunAux limit (c + 1) k
    (r.1, fired :: r.2)

def cutRun (limit k : Nat) : Nat × List Bool := cutRunAux limit 0 k

/-! ## `justOnce` (src/lib/utils.ts:457-465)

`justOnce(fn)` closes over `alreadyCalled = false`; a call first checks the
flag (returning `undefined` without touching `fn` if set), then sets the
flag *before* invoking `fn`, and returns `fn`'s result.  The callback may
throw, so it is `Except`-valued; each run result is `none` (undefined
returned) or `some r` with `r` the outcome of an actual `fn` invocation.
The second component counts the invocations of `fn`. -/

def justOnceRunAux {ι ε β : Type} (fn : ι → Except ε β) :
    Bool → List ι → List (Option (Except ε β)) × Nat
  | _, [] => ([], 0)
  | true, _ :: xs =>
    let r := justOnceRunAux fn true xs
    (none :: r.1, r.2)
  | false, x :: xs =>
    let r := justOnceRunAux fn true xs
    (some (fn x) :: r.1, r.2 + 1)

def justOnceRun {ι ε β : Type} (fn : ι → Except ε β) (calls : List ι) :
    List (Option (Except ε β)) × Nat :=
  justOnceRunAux fn false calls

/-! ## State-threading runs of the aggregators

The loop body of each aggregator is re-transcribed with the source
container threaded through every iteration: each statement of the body
(`let key = fn(...)`, the `ret` update) is applied to the pair
(source, ret), writing only to the `ret` component — the per-iteration
reads of the source happen in the precomputed traversal, exactly as
`forEach` snapshots the iteration sequence.  The first component of the
result is the source object as the call leaves it. -/

def countByWithMapRun {α κ : Type} [DecidableEq κ] (struct : Struct α)
    (fn : EltArg α → κ) : Struct α × List (κ × Nat) :=
  (structArgs struct).foldl (fun st a => (st.1, bumpCount st.2 (fn a))) (struct, [])

def countByWithObjRun {α : Type} (struct : Struct α) (fn : EltArg α → String) :
    Struct α × List (String × JsVal) :=
  (structArgs struct).foldl (fun st a => (st.1, bumpCountObj st.2 (fn a))) (struct, [])

def groupByWithMapRun {α κ : Type} [DecidableEq α] [DecidableEq κ]
    (struct : Struct α) (fn : EltArg α → κ) (pr : ProjFns α) :
    Struct α × List (κ × Struct α) :=
  match struct with
  | .arr l =>
    let r := (arrItems l fn pr).foldl
      (fun st kv => (st.1, groupStep (fun b v => b ++ [v]) (fun v => [v]) st.2 kv))
      (Struct.arr l, [])
    (r.1, r.2.map fun e => (e.1, Struct.arr e.2))
  | .set l =>
    let r := (setItems l fn pr).foldl
      (fun st kv => (st.1, groupStep setAdd (fun v => [v]) st.2 kv)) (Struct.set l, [])
    (r.1, r.2.map fun e => (e.1, Struct.set e.2))
  | .map l =>
    let r := (mapItems l fn pr).foldl
      (fun st kv => (st.1, groupStep mapSetPair (fun kv => [kv]) st.2 kv)) (Struct.map l, [])
    (r.1, r.2.map fun e => (e.1, Struct.map e.2))
  | .record l =>
    let r := (recItems l fn pr).foldl
      (fun st kv => (st.1, groupStep objSetProp (fun kv => [kv]) st.2 kv))
      (Struct.record l, [])
    (r.1, r.2.map fun e => (e.1, Struct.record e.2))

def groupByWithObjRun {α : Type} [DecidableEq α]
    (struct : Struct α) (fn : EltArg α → String) (pr : ProjFns α) :
    Struct α × Except (JsErr Empty) (List (String × Struct α)) :=
  match struct with
  | .arr l =>
    let r := (arrItems l fn pr).foldl
      (fun st kv =>
        (st.1, st.2.bind fun ret => groupStepObjE true (fun b v => b ++ [v]) (fun v => [v]) ret kv))
      (Struct.arr l, (Except.ok [] : Except (JsErr Empty) (List (String × List α))))
    (r.1, r.2.map fun r' => r'.map fun e => (e.1, Struct.arr e.2))
  | .set l =>
    let r := (setItems l fn pr).foldl
      (fun st kv => (st.1, st.2.bind fun ret => groupStepObjE true setAdd (fun v => [v]) ret kv))
      (Struct.set l, (Except.ok [] : Except (JsErr Empty) (List (String × List α))))
    (r.1, r.2.map fun r' => r'.map fun e => (e.1, Struct.set e.2))
  | .map l =>
    let r := (mapItems l fn pr).foldl
      (fun st kv => (st.1, st.2.bind fun ret => groupStepObjE true mapSetPair (fun kv => [kv]) ret kv))
      (Struct.map l, (Except.ok [] : Except (JsErr Empty) (List (String × List (α × α)))))
    (r.1, r.2.map fun r' => r'.map fun e => (e.1, Struct.map e.2))
  | .record l =>
    let r := (recItems l fn pr).foldl
      (fun st kv => (st.1, st.2.bind fun ret => groupStepObjE false objSetProp (fun kv => [kv]) ret kv))
      (Struct.record l, (Except.ok [] : Except (JsErr Empty) (List (String × List (String × α)))))
    (r.1, r.2.map fun r' => r'.map fun e => (e.1, Struct.record e.2))

/-! ## Fallible-callback (`Except`) versions

The classifier and the projection may throw.  The `forEach` loop is
transcribed with short-circuiting: the first exception aborts the
iteration and propagates, no partial result is returned. -/

/-- The throwing projection, by argument shape (like `ProjFns`). -/
structure ProjFnsE (α ε : Type) : Type where
  onVal : α → Except ε α
  onMapPair : α × α → Except ε (α × α)
  onRecEntry : String × α → Except ε (String × α)

/-- `countByWithMap`'s loop with a throwing classifier. -/
def countByEAux {α κ ε : Type} [DecidableEq κ] (fn : EltArg α → Except ε κ) :
    List (EltArg α) → List (κ × Nat) → Except ε (List (κ × Nat))
  | [], ret => .ok ret
  | a :: as, ret =>
    match fn a with
    | .error e => .error e
    | .ok k => countByEAux fn as (bumpCount ret k)

def countByWithMapE {α κ ε : Type} [DecidableEq κ] (struct : Struct α)
    (fn : EltArg α → Except ε κ) : Except ε (List (κ × Nat)) :=
  countByEAux fn (structArgs struct) []

def countByObjEAux {α ε : Type} (fn : EltArg α → Except ε String) :
    List (EltArg α) → List (String × JsVal) → Except ε (List (String × JsVal))
  | [], ret => .ok ret
  | a :: as, ret =>
    match fn a with
    | .error e => .error e
    | .ok k => countByObjEAux fn as (bumpCountObj ret k)

/-- `countByWithObj` with a throwing classifier.  Its own loop body never
throws: `+= 1` on an inherited member is a string concatenation and the
`__proto__` setter swallows its assignment, so the only exceptions are the
classifier's. -/
def countByWithObjE {α ε : Type} (struct : Struct α)
    (fn : EltArg α → Except ε String) : Except ε (List (String × JsVal)) :=
  countByObjEAux fn (structArgs struct) []

/-- Running just the classifier calls of a count-by traversal (the spec
side of "the classifier throws on some element": its result is the first
exception, if any). -/
def countCallbacks {α κ ε : Type} (fn : EltArg α → Except ε κ) :
    List (EltArg α) → Except ε Unit
  | [] => .ok ()
  | a :: as =>
    match fn a with
    | .error e => .error e
    | .ok _ => countCallbacks fn as

/-- Group-by loop with throwing callbacks: per element the classifier runs
first, then the projection (the code computes `retKey` before `finalVal`). -/
def groupEAux {ι κ B μ ε : Type} [DecidableEq κ] (ins : B → μ → B) (mk : μ → B)
    (keyOf : ι → Except ε κ) (valOf : ι → Except ε μ) :
    List ι → List (κ × B) → Except ε (List (κ × B))
  | [], ret => .ok ret
  | x :: xs, ret =>
    match keyOf x with
    | .error e => .error e
    | .ok k =>
      match valOf x with
      | .error e => .error e
      | .ok v => groupEAux ins mk keyOf valOf xs (groupStep ins mk ret (k, v))

/-- The object-result group-by loop with throwing callbacks: per element
the classifier (user exceptions lifted to `JsErr.user`), then the
projection, then the bucket step, which can itself raise `TypeError`. -/
def groupObjEAux {ι B μ ε : Type} (protoThrows : Bool) (ins : B → μ → B) (mk : μ → B)
    (keyOf : ι → Except ε String) (valOf : ι → Except ε μ) :
    List ι → List (String × B) → Except (JsErr ε) (List (String × B))
  | [], ret => .ok ret
  | x :: xs, ret =>
    match keyOf x with
    | .error e => .error (.user e)
    | .ok k =>
      match valOf x with
      | .error e => .error (.user e)
      | .ok v =>
        match groupStepObjE protoThrows ins mk ret (k, v) with
        | .error er => .error er
        | .ok ret' => groupObjEAux protoThrows ins mk keyOf valOf xs ret'

/-- Running just the callback calls (classifier, then projection) of a
group-by traversal. -/
def groupCallbacks {ι κ μ ε : Type} (keyOf : ι → Except ε κ) (valOf : ι → Except ε μ) :
    List ι → Except ε Unit
  | [] => .ok ()
  | x :: xs =>
    match keyOf x with
    | .error e => .error e
    | .ok _ =>
      match valOf x with
      | .error e => .error e
      | .ok _ => groupCallbacks keyOf valOf xs

def groupByWithMapE {α κ ε : Type} [DecidableEq α] [DecidableEq κ]
    (struct : Struct α) (fn : EltArg α → Except ε κ) (pr : ProjFnsE α ε) :
    Except ε (List (κ × Struct α)) :=
  match struct with
  | .arr l =>
    (groupEAux (fun b v => b ++ [v]) (fun v => [v])
        (fun iv : Nat × α => fn (.arrElt iv.2 iv.1)) (fun iv => pr.onVal iv.2)
        l.enum []).map fun r => r.map fun e => (e.1, Struct.arr e.2)
  | .set l =>
    (groupEAux setAdd (fun v => [v])
        (fun v : α => fn (.setElt v)) (fun v => pr.onVal v) l []).map
      fun r => r.map fun e => (e.1, Struct.set e.2)
  | .map l =>
    (groupEAux mapSetPair (fun kv => [kv])
        (fun kv : α × α => fn (.mapElt kv.2 kv.1))
        (fun kv => pr.onMapPair (kv.1, kv.2)) l []).map
      fun r => r.map fun e => (e.1, Struct.map e.2)
  | .record l =>
    (groupEAux objSetProp (fun kv => [kv])
        (fun ikv : Nat × (String × α) => fn (.entryElt ikv.2.1 ikv.2.2 ikv.1))
        (fun ikv => pr.onRecEntry ikv.2) l.enum []).map
      fun r => r.map fun e => (e.1, Struct.record e.2)

def groupByWithObjE {α ε : Type} [DecidableEq α]
    (struct : Struct α) (fn : EltArg α → Except ε String) (pr : ProjFnsE α ε) :
    Except (JsErr ε) (List (String × Struct α)) :=
  match struct with
  | .arr l =>
    (groupObjEAux true (fun b v => b ++ [v]) (fun v => [v])
        (fun iv : Nat × α => fn (.arrElt iv.2 iv.1)) (fun iv => pr.onVal iv.2)
        l.enum []).map fun r => r.map fun e => (e.1, Struct.arr e.2)
  | .set l =>
    (groupObjEAux true setAdd (fun v => [v])
        (fun v : α => fn (.setElt v)) (fun v => pr.onVal v) l []).map
      fun r => r.map fun e => (e.1, Struct.set e.2)
  | .map l =>
    (groupObjEAux true mapSetPair (fun kv => [kv])
        (fun kv : α × α => fn (.mapElt kv.2 kv.1))
        (fun kv => pr.onMapPair (kv.1, kv.2)) l []).map
      fun r => r.map fun e => (e.1, Struct.map e.2)
  | .record l =>
    (groupObjEAux false objSetProp (fun kv => [kv])
        (fun ikv : Nat × (String × α) => fn (.entryElt ikv.2.1 ikv.2.2 ikv.1))
        (fun ikv => pr.onRecEntry ikv.2) l.enum []).map
      fun r => r.map fun e => (e.1, Struct.record e.2)

/-! ## Basic lemmas -/

/-- Total of all counters of a count-by result. -/
def sumCounts {κ : Type} (ret : List (κ × Nat)) : Nat :=
  (ret.map Prod.snd).sum

theorem sumCounts_bumpCount {κ : Type} [DecidableEq κ] (ret : List (κ × Nat)) (k : κ) :
    sumCounts (bumpCount ret k) = sumCounts ret + 1 := by
  induction ret with
  | nil => rfl
  | cons e rest ih =>
    obtain ⟨k', c⟩ := e
    by_cases h : k' = k <;> simp [bumpCount, h, sumCounts] at ih ⊢ <;> omega

/-- The numeric reading of a stored record value (a polluted string reads
as `0`; under the theorems' hypotheses only numbers occur). -/
def countVal : JsVal → Nat
  | .num n => n
  | .str _ => 0

/-- Total of the counters of a record count-by result. -/
def sumCountsObj (ret : List (String × JsVal)) : Nat :=
  (ret.map fun e => countVal e.2).sum

/-- All stored record values are numbers. -/
def AllNum (ret : List (String × JsVal)) : Prop :=
  ∀ e ∈ ret, ∃ n, e.2 = JsVal.num n

theorem mem_insertIntKey {β : Type} (o : List (String × β)) (kv : String × β) :
    ∀ e ∈ insertIntKey o kv, e ∈ o ∨ e = kv := by
  induction o with
  | nil => intro e he; simp [insertIntKey] at he; simp [he]
  | cons p rest ih =>
    intro e he
    by_cases h : (isArrayIndex p.1 && decide (keyNat p.1 < keyNat kv.1)) = true
    · simp only [insertIntKey, h, if_true] at he
      rcases List.mem_cons.mp he with he | he
      · exact Or.inl (by simp [he])
      · rcases ih e he with h' | h'
        · exact Or.inl (List.mem_cons_of_mem _ h')
        · exact Or.inr h'
    · simp only [insertIntKey, h, if_false] at he
      rcases List.mem_cons.mp he with he | he
      · exact Or.inr he
      · exact Or.inl he

theorem mem_objInsertNew {β : Type} (o : List (String × β)) (kv : String × β) :
    ∀ e ∈ objInsertNew o kv, e ∈ o ∨ e = kv := by
  intro e he
  unfold objInsertNew at he
  split at he
  · exact mem_insertIntKey o kv e he
  · rcases List.mem_append.mp he with h | h
    · exact Or.inl h
    · exact Or.inr (by simpa using h)

theorem sumMap_insertIntKey {β : Type} (f : String × β → Nat) (o : List (String × β))
    (kv : String × β) :
    ((insertIntKey o kv).map f).sum = (o.map f).sum + f kv := by
  induction o with
  | nil => simp [insertIntKey]
  | cons e rest ih =>
    obtain ⟨k', v'⟩ := e
    by_cases h : (isArrayIndex k' && decide (keyNat k' < keyNat kv.1)) = true
    · simp [insertIntKey, h] at ih ⊢
      omega
    · simp [insertIntKey, h]
      omega

theorem sumCountsObj_objInsertNew (o : List (String × JsVal)) (kv : String × JsVal) :
    sumCountsObj (objInsertNew o kv) = sumCountsObj o + countVal kv.2 := by
  unfold objInsertNew
  split
  · exact sumMap_insertIntKey (fun e => countVal e.2) o kv
  · simp [sumCountsObj]

theorem sumCountsObj_updateStr (ret : List (String × JsVal)) (k : String)
    (h : hasKeyStr ret k = true) (hnum : AllNum ret) :
    sumCountsObj (updateStr ret k jsAdd1) = sumCountsObj ret + 1 := by
  induction ret with
  | nil => simp [hasKeyStr] at h
  | cons e rest ih =>
    obtain ⟨k', v⟩ := e
    by_cases hk : k' = k
    · obtain ⟨n, hn⟩ := hnum (k', v) (by simp)
      simp only at hn
      subst hn
      simp [updateStr, hk, sumCountsObj, jsAdd1, countVal]
      omega
    · have h' : hasKeyStr rest k = true := by
        simpa [hasKeyStr, hk] using h
      have hnum' : AllNum rest := fun e he => hnum e (by simp [he])
      simp only [updateStr, hk, if_false, sumCountsObj, List.map_cons, List.sum_cons]
      simp only [sumCountsObj] at ih
      rw [ih h' hnum']
      omega

theorem allNum_updateStr (ret : List (String × JsVal)) (k : String) (hnum : AllNum ret) :
    AllNum (updateStr ret k jsAdd1) := by
  induction ret with
  | nil => intro e he; simp [updateStr] at he
  | cons p rest ih =>
    obtain ⟨k', v⟩ := p
    intro e he
    by_cases hk : k' = k
    · simp only [updateStr, hk, if_pos rfl] at he
      rcases List.mem_cons.mp he with he | he
      · obtain ⟨n, hn⟩ := hnum (k, v) (by simp [← hk])
        simp only at hn
        subst hn
        rw [he]
        exact ⟨n + 1, rfl⟩
      · exact hnum e (by simp [he])
    · simp only [updateStr, hk, if_false] at he
      rcases List.mem_cons.mp he with he | he
      · exact he ▸ hnum (k', v) (by simp)
      · exact ih (fun x hx => hnum x (by simp [hx])) e he

theorem sumCountsObj_bumpCountObj (ret : List (String × JsVal)) (k : String)
    (hp : isProtoKey k = false) (hnum : AllNum ret) :
    sumCountsObj (bumpCountObj ret k) = sumCountsObj ret + 1 := by
  unfold bumpCountObj
  split
  next h => exact sumCountsObj_updateStr ret k h hnum
  next h =>
    rw [hp]
    simp only [Bool.false_eq_true, if_false]
    simpa [countVal] using sumCountsObj_objInsertNew ret (k, .num 1)

theorem allNum_bumpCountObj (ret : List (String × JsVal)) (k : String)
    (hp : isProtoKey k = false) (hnum : AllNum ret) :
    AllNum (bumpCountObj ret k) := by
  unfold bumpCountObj
  split
  next h => exact allNum_updateStr ret k hnum
  next h =>
    rw [hp]
    simp only [Bool.false_eq_true, if_false]
    intro e he
    rcases mem_objInsertNew ret (k, .num 1) e he with h' | h'
    · exact hnum e h'
    · rw [h']
      exact ⟨1, rfl⟩

theorem structArgs_length {α : Type} (s : Struct α) :
    (structArgs s).length = s.size := by
  cases s <;> simp [structArgs, Struct.size]

theorem countByFold_sum {α κ : Type} [DecidableEq κ] (fn : EltArg α → κ) :
    ∀ (l : List (EltArg α)) (ret : List (κ × Nat)),
      sumCounts (l.foldl (fun r a => bumpCount r (fn a)) ret) = sumCounts ret + l.length := by
  intro l
  induction l with
  | nil => intro ret; simp
  | cons a as ih =>
    intro ret
    simp only [List.foldl_cons, List.length_cons]
    rw [ih (bumpCount ret (fn a)), sumCounts_bumpCount]
    omega

theorem countByObjFold_sum {α : Type} (fn : EltArg α → String) :
    ∀ (l : List (EltArg α)) (ret : List (String × JsVal)),
      (∀ a ∈ l, isProtoKey (fn a) = false) → AllNum ret →
      sumCountsObj (l.foldl (fun r a => bumpCountObj r (fn a)) ret) =
        sumCountsObj ret + l.length := by
  intro l
  induction l with
  | nil => intro ret _ _; simp
  | cons a as ih =>
    intro ret hpk hnum
    have hpa : isProtoKey (fn a) = false := hpk a (by simp)
    simp only [List.foldl_cons, List.length_cons]
    rw [ih (bumpCountObj ret (fn a)) (fun x hx => hpk x (by simp [hx]))
      (allNum_bumpCountObj ret (fn a) hpa hnum),
      sumCountsObj_bumpCountObj ret (fn a) hpa hnum]
    omega

/-! ## Claim theorems -/

/-- C2 (amended): **Count conservation.**  The counts of `countByWithMap`
always sum to the number of elements of the source (for a record, its own
enumerable entries).  For `countByWithObj` this holds provided no bucket
key is an inherited `Object.prototype` member: a key like `"toString"`
takes the `+= 1` branch on first occurrence (the guard sees the inherited
function) and stores a concatenated string, and a `"__proto__"` key hits
the inherited setter and stores nothing (see the counterexample). -/
theorem countBy_conservation {α κ : Type} [DecidableEq κ]
    (s : Struct α) (fn : EltArg α → κ) (fnS : EltArg α → String) :
    sumCounts (countByWithMap s fn) = s.size ∧
    ((∀ a ∈ structArgs s, isProtoKey (fnS a) = false) →
      sumCountsObj (countByWithObj s fnS) = s.size) := by
  constructor
  · rw [countByWithMap, countByFold_sum fn (structArgs s) []]
    simp [sumCounts, structArgs_length]
  · intro hpk
    rw [countByWithObj,
      countByObjFold_sum fnS (structArgs s) [] hpk (by intro e he; simp at he)]
    simp [sumCountsObj, structArgs_length]

/-- Witness for `countBy_conservation` at a concrete source whose bucket
keys are ordinary strings. -/
theorem countBy_conservation_witness :
    sumCountsObj (countByWithObj (Struct.arr ["x", "y", "x"])
      (fun a => match a with | .arrElt v _ => v | _ => "")) =
      (Struct.arr ["x", "y", "x"]).size :=
  (countBy_conservation (Struct.arr ["x", "y", "x"]) (fun _ => (0 : Nat))
    (fun a => match a with | .arrElt v _ => v | _ => "")).2 (by decide)

/-- C2 counterexample: with the constant classifier `() => "__proto__"`, the
write `ret["__proto__"] = 1` runs the inherited setter and stores nothing,
so the counts of `countByWithObj` on a one-element array sum to `0`, not
`1`: the claim is false as stated for `countByWithObj`. -/
theorem countBy_conservation_counterexample :
    ¬ (sumCountsObj (countByWithObj (Struct.arr [(0 : Nat)]) (fun _ => "__proto__")) =
        (Struct.arr [(0 : Nat)]).size) := by
  decide

theorem mem_bumpCount_pos {κ : Type} [DecidableEq κ] (ret : List (κ × Nat)) (k : κ)
    (hret : ∀ e ∈ ret, 1 ≤ e.2) : ∀ e ∈ bumpCount ret k, 1 ≤ e.2 := by
  induction ret with
  | nil =>
    intro e he; simp [bumpCount] at he; simp [he]
  | cons p rest ih =>
    obtain ⟨k', c⟩ := p
    intro e he
    by_cases h : k' = k
    · simp [bumpCount, h] at he
      rcases he with he | he
      · simp [he]
      · exact hret e (by simp [he])
    · simp only [bumpCount, h, if_false] at he
      rcases List.mem_cons.mp he with he | he
      · exact he ▸ hret (k', c) (by simp)
      · exact ih (fun e h' => hret e (List.mem_cons_of_mem _ h')) e he


/-- A stored record count that is a genuine positive integer. -/
def GoodCount (v : JsVal) : Prop := ∃ n, v = JsVal.num n ∧ 1 ≤ n

theorem mem_updateStr_pos (ret : List (String × JsVal)) (k : String)
    (hret : ∀ e ∈ ret, GoodCount e.2) : ∀ e ∈ updateStr ret k jsAdd1, GoodCount e.2 := by
  induction ret with
  | nil => intro e he; simp [updateStr] at he
  | cons p rest ih =>
    obtain ⟨k', v⟩ := p
    intro e he
    by_cases h : k' = k
    · simp only [updateStr, h, if_pos rfl] at he
      rcases List.mem_cons.mp he with he | he
      · obtain ⟨n, hn, hn1⟩ := hret (k', v) (by simp)
        simp only at hn
        subst hn
        rw [he]
        exact ⟨n + 1, rfl, by omega⟩
      · exact hret e (by simp [he])
    · simp only [updateStr, h, if_false] at he
      rcases List.mem_cons.mp he with he | he
      · exact he ▸ hret (k', v) (by simp)
      · exact ih (fun e h' => hret e (List.mem_cons_of_mem _ h')) e he


theorem mem_bumpCountObj_pos (ret : List (String × JsVal)) (k : String)
    (hd : isProtoDataKey k = false) (hret : ∀ e ∈ ret, GoodCount e.2) :
    ∀ e ∈ bumpCountObj ret k, GoodCount e.2 := by
  intro e he
  unfold bumpCountObj at he
  split at he
  · exact mem_updateStr_pos ret k hret e he
  · split at he
    next hpk =>
      have hk : k = "__proto__" := by
        rw [isProtoKey, hd] at hpk
        simpa using hpk
      rw [if_pos hk] at he
      exact hret e he
    next hpk =>
      rcases mem_objInsertNew ret (k, .num 1) e he with h' | h'
      · exact hret e h'
      · rw [h']
        exact ⟨1, rfl, le_refl 1⟩

theorem countByFold_pos {α κ : Type} [DecidableEq κ] (fn : EltArg α → κ) :
    ∀ (l : List (EltArg α)) (ret : List (κ × Nat)), (∀ e ∈ ret, 1 ≤ e.2) →
      ∀ e ∈ l.foldl (fun r a => bumpCount r (fn a)) ret, 1 ≤ e.2 := by
  intro l
  induction l with
  | nil => intro ret h; simpa using h
  | cons a as ih =>
    intro ret h
    exact ih (bumpCount ret (fn a)) (mem_bumpCount_pos ret (fn a) h)

theorem countByObjFold_pos {α : Type} (fn : EltArg α → String) :
    ∀ (l : List (EltArg α)) (ret : List (String × JsVal)),
      (∀ a ∈ l, isProtoDataKey (fn a) = false) → (∀ e ∈ ret, GoodCount e.2) →
      ∀ e ∈ l.foldl (fun r a => bumpCountObj r (fn a)) ret, GoodCount e.2 := by
  intro l
  induction l with
  | nil => intro ret _ h; simpa using h
  | cons a as ih =>
    intro ret hpk h
    exact ih (bumpCountObj ret (fn a)) (fun x hx => hpk x (by simp [hx]))
      (mem_bumpCountObj_pos ret (fn a) (hpk a (by simp)) h)

/-- C9 (amended): every count stored by `countByWithMap` is at least `1`.
For `countByWithObj` the same holds provided no bucket key is an inherited
`Object.prototype` **data** member: for such a key (e.g. `"toString"`)
the first `+= 1` concatenates onto the inherited function and stores a
string, not an integer (see the counterexample); a `"__proto__"` key
stores nothing at all, so it never associates a bad value. -/
theorem countBy_counts_positive {α κ : Type} [DecidableEq κ]
    (s : Struct α) (fn : EltArg α → κ) (fnS : EltArg α → String) :
    (∀ e ∈ countByWithMap s fn, 1 ≤ e.2) ∧
    ((∀ a ∈ structArgs s, isProtoDataKey (fnS a) = false) →
      ∀ e ∈ countByWithObj s fnS, GoodCount e.2) :=
  ⟨countByFold_pos fn (structArgs s) [] (by simp),
   fun hpk => countByObjFold_pos fnS (structArgs s) [] hpk (by simp)⟩

/-- Witness for `countBy_counts_positive` at a concrete source. -/
theorem countBy_counts_positive_witness :
    1 ≤ ((1, 2) : Nat × Nat).2 ∧ GoodCount (("k", JsVal.num 2) : String × JsVal).2 :=
  ⟨(countBy_counts_positive (Struct.arr [5, 7])
      (fun _ => (1 : Nat)) (fun _ => "k")).1 (1, 2) (by decide),
   (countBy_counts_positive (Struct.arr [5, 7])
      (fun _ => (1 : Nat)) (fun _ => "k")).2 (by decide) ("k", JsVal.num 2) (by decide)⟩

/-- The C9 counterexample classifier: the constant bucket key
`"toString"`. -/
def c9fn : EltArg Nat → String := fun _ => "toString"

/-- C9 counterexample: `countByWithObj([0], () => "toString")` finds the
inherited `Object.prototype.toString` not `undefined`, takes the `+= 1`
branch and stores the function concatenated with `"1"` — a string, not an
integer `≥ 1`: the claim is false as stated for `countByWithObj`. -/
theorem countBy_counts_positive_counterexample :
    ¬ (∀ e ∈ countByWithObj (Struct.arr [(0 : Nat)]) c9fn, GoodCount e.2) := by
  intro h
  have hm : ("toString", JsVal.str (protoStrVal "toString" ++ "1")) ∈
      countByWithObj (Struct.arr [(0 : Nat)]) c9fn := by decide
  obtain ⟨n, hn, _⟩ := h _ hm
  simp at hn

/-- C7: for every limit `n ≥ 1`, the function returned by `cut(n, callback)`
invokes `callback` exactly once over any `k ≥ n` invocations, namely on the
`n`-th invocation, and later invocations still increment the counter
(which ends at `k`) without invoking `callback` again. -/
theorem cut_fires_exactly_once (n k : Nat) (hn : 1 ≤ n) (hk : n ≤ k) :
    (cutRun n k).1 = k ∧
    ((cutRun n k).2.count true = 1 ∧ (cutRun n k).2.get? (n - 1) = some true) := by
  have flags : ∀ c k, cutRunAux n c k =
      (c + k, (List.range k).map fun i => decide (c + 1 + i = n)) := by
    intro c k
    induction k generalizing c with
    | zero => simp [cutRunAux]
    | succ k ih =>
      rw [cutRunAux, ih (c + 1), List.range_succ_eq_map]
      simp only [List.map_cons, List.map_map, Prod.mk.injEq]
      refine ⟨by omega, ?_⟩
      congr 1
      apply List.map_congr_left
      intro i _
      simp only [Function.comp_apply]
      rw [decide_eq_decide]
      omega
  have hrun : cutRun n k = (k, (List.range k).map fun i => decide (i + 1 = n)) := by
    rw [cutRun, flags 0 k]
    simp only [Nat.zero_add, Prod.mk.injEq, true_and]
    apply List.map_congr_left
    intro i _
    rw [decide_eq_decide]
    omega
  refine ⟨by rw [hrun], ?_, ?_⟩
  · rw [hrun]
    have hcount : ∀ m : Nat,
        (((List.range m).map fun i => decide (i + 1 = n)).count true) =
          if n ≤ m then 1 else 0 := by
      intro m
      induction m with
      | zero =>
        simp only [List.range_zero, List.map_nil, List.count_nil]
        rw [if_neg (by omega)]
      | succ m ih =>
        rw [List.range_succ, List.map_append, List.count_append, ih]
        by_cases h : m + 1 = n
        · rw [if_neg (by omega), if_pos (by omega)]
          simp [h]
        · by_cases h2 : n ≤ m
          · rw [if_pos h2, if_pos (by omega)]
            simp [h]
          · rw [if_neg h2, if_neg (by omega)]
            simp [h]
    rw [hcount k, if_pos hk]
  · rw [hrun, List.get?_eq_getElem?, List.getElem?_map, List.getElem?_range (by omega)]
    have h1 : n - 1 + 1 = n := by omega
    simp [h1]

/-- Witness for `cut_fires_exactly_once`: limit 2, five calls. -/
theorem cut_fires_exactly_once_witness :
    (cutRun 2 5).1 = 5 ∧
    ((cutRun 2 5).2.count true = 1 ∧ (cutRun 2 5).2.get? 1 = some true) :=
  cut_fires_exactly_once 2 5 (by decide) (by decide)

/-- C10: the wrapper returned by `justOnce(fn)` invokes `fn` on its first
call only and returns `fn`'s result then (also when that result is a
thrown exception — the already-called flag is set before `fn` runs, so a
throwing first call still consumes the single shot); every later call
returns `undefined` without invoking `fn`. -/
theorem justOnce_single_shot {ι ε β : Type} (fn : ι → Except ε β) (x : ι) (xs : List ι) :
    justOnceRun fn (x :: xs) = (some (fn x) :: xs.map (fun _ => none), 1) := by
  have aux : ∀ ys : List ι, justOnceRunAux fn true ys = (ys.map (fun _ => none), 0) := by
    intro ys
    induction ys with
    | nil => rfl
    | cons y ys ih => simp [justOnceRunAux, ih]
  simp [justOnceRun, justOnceRunAux, aux xs]

/-! ## Key-order lemmas (C5) -/

theorem bumpCount_keys_mem {κ : Type} [DecidableEq κ] (ret : List (κ × Nat)) (k : κ)
    (h : k ∈ ret.map Prod.fst) : (bumpCount ret k).map Prod.fst = ret.map Prod.fst := by
  induction ret with
  | nil => simp at h
  | cons p rest ih =>
    obtain ⟨k', c⟩ := p
    by_cases hk : k' = k
    · simp [bumpCount, hk]
    · have h' : k ∈ rest.map Prod.fst := by
        rcases List.mem_map.mp h with ⟨e, he, hfst⟩
        rcases List.mem_cons.mp he with he | he
        · exact absurd (by rw [he] at hfst; exact hfst) hk
        · exact List.mem_map.mpr ⟨e, he, hfst⟩
      simp [bumpCount, hk, ih h']

theorem bumpCount_keys_new {κ : Type} [DecidableEq κ] (ret : List (κ × Nat)) (k : κ)
    (h : k ∉ ret.map Prod.fst) :
    (bumpCount ret k).map Prod.fst = ret.map Prod.fst ++ [k] := by
  induction ret with
  | nil => simp [bumpCount]
  | cons p rest ih =>
    obtain ⟨k', c⟩ := p
    have hk : k' ≠ k := by
      intro hk; exact h (by simp [hk])
    have h' : k ∉ rest.map Prod.fst := fun hm => h (by simp [hm])
    simp [bumpCount, hk, ih h']

theorem countKeys_fold {κ : Type} [DecidableEq κ] :
    ∀ (ks : List κ) (ret : List (κ × Nat)),
      (ks.foldl bumpCount ret).map Prod.fst =
        ret.map Prod.fst ++ firstOccurAux (ret.map Prod.fst) ks := by
  intro ks
  induction ks with
  | nil => intro ret; simp [firstOccurAux]
  | cons k ks ih =>
    intro ret
    by_cases h : k ∈ ret.map Prod.fst
    · rw [List.foldl_cons, ih (bumpCount ret k), bumpCount_keys_mem ret k h]
      simp [firstOccurAux, h]
    · rw [List.foldl_cons, ih (bumpCount ret k), bumpCount_keys_new ret k h]
      simp [firstOccurAux, h]

theorem hasKeyStr_iff_mem {β : Type} (o : List (String × β)) (k : String) :
    hasKeyStr o k = true ↔ k ∈ o.map Prod.fst := by
  simp [hasKeyStr, List.any_eq_true]

theorem updateStr_keys {β : Type} (o : List (String × β)) (k : String) (f : β → β) :
    (updateStr o k f).map Prod.fst = o.map Prod.fst := by
  induction o with
  | nil => rfl
  | cons p rest ih =>
    obtain ⟨k', v'⟩ := p
    by_cases hk : k' = k <;> simp [updateStr, hk, ih]

theorem bumpCountObj_keys_new (ret : List (String × JsVal)) (k : String)
    (h : k ∉ ret.map Prod.fst) (hi : isArrayIndex k = false) (hp : k ≠ "__proto__") :
    (bumpCountObj ret k).map Prod.fst = ret.map Prod.fst ++ [k] := by
  have hh : hasKeyStr ret k = false := by
    rw [← Bool.not_eq_true, hasKeyStr_iff_mem]; exact h
  rw [bumpCountObj, hh]
  simp only [Bool.false_eq_true, if_false]
  by_cases hpk : isProtoKey k = true
  · rw [hpk, if_pos rfl, if_neg hp]
    simp only [objInsertNew, hi, Bool.false_eq_true, if_false]
    simp
  · rw [Bool.not_eq_true] at hpk
    rw [hpk]
    simp only [Bool.false_eq_true, if_false, objInsertNew, hi]
    simp

theorem countObjKeys_fold :
    ∀ (ks : List String) (ret : List (String × JsVal)),
      (∀ k ∈ ks, isArrayIndex k = false ∧ k ≠ "__proto__") →
      (ks.foldl bumpCountObj ret).map Prod.fst =
        ret.map Prod.fst ++ firstOccurAux (ret.map Prod.fst) ks := by
  intro ks
  induction ks with
  | nil => intro ret _; simp [firstOccurAux]
  | cons k ks ih =>
    intro ret hks
    have hk : isArrayIndex k = false ∧ k ≠ "__proto__" := hks k (by simp)
    have hks' : ∀ k' ∈ ks, isArrayIndex k' = false ∧ k' ≠ "__proto__" :=
      fun k' h' => hks k' (by simp [h'])
    by_cases h : k ∈ ret.map Prod.fst
    · have hkeys : (bumpCountObj ret k).map Prod.fst = ret.map Prod.fst := by
        have hh : hasKeyStr ret k = true := (hasKeyStr_iff_mem ret k).mpr h
        rw [bumpCountObj, hh]
        simp [updateStr_keys]
      rw [List.foldl_cons, ih (bumpCountObj ret k) hks', hkeys]
      simp [firstOccurAux, h]
    · rw [List.foldl_cons, ih (bumpCountObj ret k) hks',
        bumpCountObj_keys_new ret k h hk.1 hk.2]
      simp [firstOccurAux, h]

/-- C5 (amended): the key order of `countByWithMap` is always the
first-occurrence order of the distinct bucket keys produced during the
traversal; for `countByWithObj` this holds provided no bucket key is an
array-index string (numeric keys are enumerated first, in ascending
order — see the counterexample) and none is `"__proto__"` (whose write
runs the inherited setter and never creates an own key at all).  Other
inherited `Object.prototype` keys such as `"toString"` do shadow-create
their own key at its first-occurrence position, so they need no
exclusion. -/
theorem countBy_key_order {α κ : Type} [DecidableEq κ] :
    (∀ (s : Struct α) (fn : EltArg α → κ),
        (countByWithMap s fn).map Prod.fst = firstOccurrences ((structArgs s).map fn)) ∧
    (∀ (s : Struct α) (fnS : EltArg α → String),
        (∀ a ∈ structArgs s, isArrayIndex (fnS a) = false ∧ fnS a ≠ "__proto__") →
        (countByWithObj s fnS).map Prod.fst = firstOccurrences ((structArgs s).map fnS)) := by
  constructor
  · intro s fn
    rw [countByWithMap, firstOccurrences, ← List.foldl_map fn bumpCount,
      countKeys_fold ((structArgs s).map fn) []]
    simp
  · intro s fnS hs
    rw [countByWithObj, firstOccurrences, ← List.foldl_map fnS bumpCountObj,
      countObjKeys_fold ((structArgs s).map fnS) []
        (by intro k hk; rcases List.mem_map.mp hk with ⟨a, ha, rfl⟩; exact hs a ha)]
    simp

/-- Witness for `countBy_key_order` at concrete sources (classifier outputs
are ordinary non-numeric strings, so both parts apply). -/
theorem countBy_key_order_witness :
    (countByWithObj (Struct.arr ["x", "y", "x"])
        (fun a => match a with | .arrElt v _ => v | _ => "")).map Prod.fst = ["x", "y"] := by
  have h := (@countBy_key_order String String _).2
    (Struct.arr ["x", "y", "x"]) (fun a => match a with | .arrElt v _ => v | _ => "")
    (by decide)
  rw [h]
  decide

/-- The classifier of the C5 counterexample: the array element itself
(a string) becomes the bucket key. -/
def c5fn : EltArg String → String :=
  fun a => match a with | .arrElt v _ => v | _ => ""

/-- C5 counterexample: on the array source `["b", "2"]` with the identity
classifier, first-occurrence order of the bucket keys is `["b", "2"]`, but
the record returned by `countByWithObj` enumerates the array-index key
`"2"` first: the claim is false as stated for `countByWithObj`. -/
theorem countBy_key_order_counterexample :
    ¬ ((countByWithObj (Struct.arr ["b", "2"]) c5fn).map Prod.fst =
        firstOccurrences ((structArgs (Struct.arr ["b", "2"])).map c5fn)) := by
  decide

/-! ## C4: classifier argument order -/

/-- Turn a classifier on the spec's units into the classifier on the
code's units: on the claimed `[key, value]` pair for a `Map` source it
behaves as the original does on the native `(value, key)` arguments. -/
def swapAdapter {α κ : Type} (fn : EltArg α → κ) : EltArg α → κ :=
  fun a =>
    match a with
    | .mapPairElt k v => fn (.mapElt v k)
    | a => fn a

/-- C4 (amended): for record sources the classifier does receive the single
`[key, value]` entry, and the projection receives the `[key, value]` pair
for both map and record sources (`ProjFns.onMapPair`/`onRecEntry` by
construction); but for `Map` sources the classifier receives the native
`forEach` arguments `(value, key)` — the code model agrees with the
spec-argument model only after the `(value, key)` adapter. -/
theorem classifier_arg_order {α κ : Type} [DecidableEq α] [DecidableEq κ] :
    (∀ (l : List (String × α)) (fn : EltArg α → κ),
        countByWithMap (Struct.record l) fn = countByWithMapSpecArgs (Struct.record l) fn) ∧
    (∀ (l : List (String × α)) (fn : EltArg α → κ) (pr : ProjFns α),
        groupByWithMap (Struct.record l) fn pr =
          groupByWithMapSpecArgs (Struct.record l) fn pr) ∧
    (∀ (l : List (α × α)) (fn : EltArg α → κ),
        countByWithMap (Struct.map l) fn =
          countByWithMapSpecArgs (Struct.map l) (swapAdapter fn)) ∧
    (∀ (l : List (α × α)) (fn : EltArg α → κ) (pr : ProjFns α),
        groupByWithMap (Struct.map l) fn pr =
          groupByWithMapSpecArgs (Struct.map l) (swapAdapter fn) pr) := by
  refine ⟨fun l fn => rfl, fun l fn pr => rfl, fun l fn => ?_, fun l fn pr => ?_⟩
  · simp only [countByWithMap, countByWithMapSpecArgs, structArgs, structArgsSpec,
      List.foldl_map]
    rfl
  · simp only [groupByWithMap, groupByWithMapSpecArgs, mapItems, mapItemsSpec, swapAdapter]

/-- The C4 counterexample classifier: a JS callback `(x) => x` observed
through its first argument — a bare value under the native `Map.forEach`
convention, the `[key, value]` pair under the spec's claimed convention. -/
def c4fn : EltArg Nat → Nat ⊕ (Nat × Nat) :=
  fun a =>
    match a with
    | .arrElt v _ => .inl v
    | .setElt v => .inl v
    | .mapElt v _ => .inl v
    | .entryElt _ v _ => .inl v
    | .mapPairElt k v => .inr (k, v)

/-- C4 counterexample: on the `Map` source `{3 => 5}` the classifier's
first argument is the value `5` (native `(value, key)` order), not the
`[3, 5]` pair the claim describes, and the two models disagree. -/
theorem classifier_arg_order_counterexample :
    countByWithMap (Struct.map [(3, 5)]) c4fn ≠
      countByWithMapSpecArgs (Struct.map [(3, 5)]) c4fn := by
  decide

/-! ## C3: shape preservation -/

/-- C3: every bucket collection produced by `groupByWithMap` has the same
container variant as the source: array in, array buckets; Set in, Set
buckets; Map in, Map buckets; record in, record buckets (not arrays of
`[key, value]` pairs). -/
theorem groupBy_shape_preservation {α κ : Type} [DecidableEq α] [DecidableEq κ]
    (s : Struct α) (fn : EltArg α → κ) (pr : ProjFns α) :
    ∀ e ∈ groupByWithMap s fn pr, (e.2).tag = s.tag := by
  intro e he
  cases s <;>
    · simp only [groupByWithMap, List.mem_map] at he
      obtain ⟨x, _, rfl⟩ := he
      rfl

/-- Witness for `groupBy_shape_preservation` at a record source. -/
theorem groupBy_shape_preservation_witness :
    (("k", Struct.record [("a", 1), ("b", 3)]) : String × Struct Nat).2.tag =
      (Struct.record [("a", 1), ("b", 3)] : Struct Nat).tag :=
  groupBy_shape_preservation (Struct.record [("a", 1), ("b", 3)])
    (fun _ => "k") (idProj Nat) ("k", Struct.record [("a", 1), ("b", 3)]) (by decide)

/-! ## C6: the source container is left unchanged -/

theorem foldl_fst {σ β ι : Type} (f : σ × β → ι → σ × β)
    (hf : ∀ st a, (f st a).1 = st.1) :
    ∀ (l : List ι) (p : σ × β), (l.foldl f p).1 = p.1 := by
  intro l
  induction l with
  | nil => intro p; rfl
  | cons a as ih => intro p; rw [List.foldl_cons, ih (f p a), hf p a]

/-- C6: with pure callbacks (the model's classifier and projection cannot
mutate), the source container threaded through every loop iteration is
returned unchanged by all four aggregators: only the freshly allocated
result is written to. -/
theorem aggregators_preserve_source {α κ : Type} [DecidableEq α] [DecidableEq κ]
    (s : Struct α) (fn : EltArg α → κ) (fnS : EltArg α → String) (pr : ProjFns α) :
    (countByWithMapRun s fn).1 = s ∧ (countByWithObjRun s fnS).1 = s ∧
    (groupByWithMapRun s fn pr).1 = s ∧ (groupByWithObjRun s fnS pr).1 = s := by
  refine ⟨?_, ?_, ?_, ?_⟩
  · rw [countByWithMapRun]
    apply foldl_fst
    intro st a
    rfl
  · rw [countByWithObjRun]
    apply foldl_fst
    intro st a
    rfl
  · cases s <;>
      · rw [groupByWithMapRun]
        apply foldl_fst
        intro st a
        rfl
  · cases s <;>
      · rw [groupByWithObjRun]
        apply foldl_fst
        intro st a
        rfl

/-! ## C8: callback exceptions propagate unchanged (fail-fast) -/

/-- The callback trace of a group-by call on a given source (per element,
the classifier then the projection), whose result is the first exception
thrown, if any. -/
def groupCallbacksOf {α κ ε : Type} (s : Struct α) (fn : EltArg α → Except ε κ)
    (pr : ProjFnsE α ε) : Except ε Unit :=
  match s with
  | .arr l =>
    groupCallbacks (fun iv : Nat × α => fn (.arrElt iv.2 iv.1)) (fun iv => pr.onVal iv.2) l.enum
  | .set l => groupCallbacks (fun v : α => fn (.setElt v)) (fun v => pr.onVal v) l
  | .map l =>
    groupCallbacks (fun kv : α × α => fn (.mapElt kv.2 kv.1))
      (fun kv => pr.onMapPair (kv.1, kv.2)) l
  | .record l =>
    groupCallbacks (fun ikv : Nat × (String × α) => fn (.entryElt ikv.2.1 ikv.2.2 ikv.1))
      (fun ikv => pr.onRecEntry ikv.2) l.enum

theorem countByEAux_error {α κ ε : Type} [DecidableEq κ] (fn : EltArg α → Except ε κ)
    (e : ε) :
    ∀ (l : List (EltArg α)) (ret : List (κ × Nat)),
      countCallbacks fn l = .error e → countByEAux fn l ret = .error e := by
  intro l
  induction l with
  | nil => intro ret h; simp [countCallbacks] at h
  | cons a as ih =>
    intro ret h
    rw [countCallbacks] at h
    rw [countByEAux]
    cases hfa : fn a with
    | error e' =>
      simp only [hfa] at h ⊢
      simp only [Except.error.injEq] at h
      rw [h]
    | ok k =>
      simp only [hfa] at h ⊢
      exact ih (bumpCount ret k) h

theorem countByObjEAux_error {α ε : Type} (fn : EltArg α → Except ε String) (e : ε) :
    ∀ (l : List (EltArg α)) (ret : List (String × JsVal)),
      countCallbacks fn l = .error e → countByObjEAux fn l ret = .error e := by
  intro l
  induction l with
  | nil => intro ret h; simp [countCallbacks] at h
  | cons a as ih =>
    intro ret h
    rw [countCallbacks] at h
    rw [countByObjEAux]
    cases hfa : fn a with
    | error e' =>
      simp only [hfa] at h ⊢
      simp only [Except.error.injEq] at h
      rw [h]
    | ok k =>
      simp only [hfa] at h ⊢
      exact ih (bumpCountObj ret k) h

theorem groupEAux_error {ι κ B μ ε : Type} [DecidableEq κ] (ins : B → μ → B) (mk : μ → B)
    (keyOf : ι → Except ε κ) (valOf : ι → Except ε μ) (e : ε) :
    ∀ (l : List ι) (ret : List (κ × B)),
      groupCallbacks keyOf valOf l = .error e →
      groupEAux ins mk keyOf valOf l ret = .error e := by
  intro l
  induction l with
  | nil => intro ret h; simp [groupCallbacks] at h
  | cons x xs ih =>
    intro ret h
    rw [groupCallbacks] at h
    rw [groupEAux]
    cases hk : keyOf x with
    | error e' =>
      simp only [hk] at h ⊢
      simp only [Except.error.injEq] at h
      rw [h]
    | ok k =>
      simp only [hk] at h ⊢
      cases hv : valOf x with
      | error e' =>
        simp only [hv] at h ⊢
        simp only [Except.error.injEq] at h
        rw [h]
      | ok v =>
        simp only [hv] at h ⊢
        exact ih _ h

/-- A bucket step whose key has no inherited binding always succeeds (an
own key updates in place, a fresh ordinary key creates a bucket). -/
theorem groupStepObjE_nonproto {B μ ε : Type} (protoThrows : Bool) (ins : B → μ → B)
    (mk : μ → B) (ret : List (String × B)) (kv : String × μ)
    (hk : isProtoKey kv.1 = false) :
    groupStepObjE protoThrows ins mk ret kv =
      (Except.ok (if hasKeyStr ret kv.1 then updateStr ret kv.1 fun b => ins b kv.2
        else objInsertNew ret (kv.1, mk kv.2)) : Except (JsErr ε) (List (String × B))) := by
  rw [groupStepObjE]
  by_cases hmem : hasKeyStr ret kv.1 = true
  · rw [if_pos hmem, if_pos hmem]
  · rw [Bool.not_eq_true] at hmem
    rw [hmem, hk]
    simp

theorem groupObjEAux_error {ι B μ ε : Type} (protoThrows : Bool) (ins : B → μ → B)
    (mk : μ → B) (keyOf : ι → Except ε String) (valOf : ι → Except ε μ) (e : ε) :
    ∀ (l : List ι) (ret : List (String × B)),
      (∀ x ∈ l, ∀ k, keyOf x = .ok k → isProtoKey k = false) →
      groupCallbacks keyOf valOf l = .error e →
      groupObjEAux protoThrows ins mk keyOf valOf l ret = .error (.user e) := by
  intro l
  induction l with
  | nil => intro ret _ h; simp [groupCallbacks] at h
  | cons x xs ih =>
    intro ret hpk h
    rw [groupCallbacks] at h
    rw [groupObjEAux]
    cases hk : keyOf x with
    | error e' =>
      simp only [hk] at h ⊢
      simp only [Except.error.injEq] at h
      rw [h]
    | ok k =>
      simp only [hk] at h ⊢
      cases hv : valOf x with
      | error e' =>
        simp only [hv] at h ⊢
        simp only [Except.error.injEq] at h
        rw [h]
      | ok v =>
        simp only [hv] at h ⊢
        rw [groupStepObjE_nonproto protoThrows ins mk ret (k, v)
          (hpk x (by simp) k hk)]
        exact ih _ (fun y hy => hpk y (by simp [hy])) h

/-- C8 (amended): if the classifier (or, for group-by, the projection)
throws on some element — `countCallbacks`/`groupCallbacksOf` yielding the
first exception `e` — then `countByWithMap`, `countByWithObj` and
`groupByWithMap` propagate exactly that exception, with no catching and no
partial result; `groupByWithObj` does so provided no successfully
computed bucket key is an inherited `Object.prototype` member — for such
a key its own bucket operation (e.g. `ret["toString"].push(x)`) throws a
`TypeError` first (see the counterexample). -/
theorem aggregators_fail_fast {α κ ε : Type} [DecidableEq α] [DecidableEq κ] :
    (∀ (s : Struct α) (fn : EltArg α → Except ε κ) (e : ε),
        countCallbacks fn (structArgs s) = .error e → countByWithMapE s fn = .error e) ∧
    (∀ (s : Struct α) (fnS : EltArg α → Except ε String) (e : ε),
        countCallbacks fnS (structArgs s) = .error e → countByWithObjE s fnS = .error e) ∧
    (∀ (s : Struct α) (fn : EltArg α → Except ε κ) (pr : ProjFnsE α ε) (e : ε),
        groupCallbacksOf s fn pr = .error e → groupByWithMapE s fn pr = .error e) ∧
    (∀ (s : Struct α) (fnS : EltArg α → Except ε String) (pr : ProjFnsE α ε) (e : ε),
        (∀ a ∈ structArgs s, ∀ k, fnS a = .ok k → isProtoKey k = false) →
        groupCallbacksOf s fnS pr = .error e →
        groupByWithObjE s fnS pr = .error (.user e)) := by
  refine ⟨?_, ?_, ?_, ?_⟩
  · intro s fn e h
    exact countByEAux_error fn e (structArgs s) [] h
  · intro s fnS e h
    exact countByObjEAux_error fnS e (structArgs s) [] h
  · intro s fn pr e h
    cases s <;>
      · rw [groupCallbacksOf] at h
        rw [groupByWithMapE, groupEAux_error _ _ _ _ e _ [] h]
        rfl
  · intro s fnS pr e hpk h
    cases s with
    | arr l =>
      rw [groupCallbacksOf] at h
      rw [groupByWithObjE, groupObjEAux_error true _ _ _ _ e l.enum []
        (fun x hx k hk => hpk (.arrElt x.2 x.1)
          (by rw [structArgs]; exact List.mem_map.mpr ⟨x, hx, rfl⟩) k hk) h]
      rfl
    | set l =>
      rw [groupCallbacksOf] at h
      rw [groupByWithObjE, groupObjEAux_error true _ _ _ _ e l []
        (fun x hx k hk => hpk (.setElt x)
          (by rw [structArgs]; exact List.mem_map.mpr ⟨x, hx, rfl⟩) k hk) h]
      rfl
    | map l =>
      rw [groupCallbacksOf] at h
      rw [groupByWithObjE, groupObjEAux_error true _ _ _ _ e l []
        (fun x hx k hk => hpk (.mapElt x.2 x.1)
          (by rw [structArgs]; exact List.mem_map.mpr ⟨x, hx, rfl⟩) k hk) h]
      rfl
    | record l =>
      rw [groupCallbacksOf] at h
      rw [groupByWithObjE, groupObjEAux_error false _ _ _ _ e l.enum []
        (fun x hx k hk => hpk (.entryElt x.2.1 x.2.2 x.1)
          (by rw [structArgs]; exact List.mem_map.mpr ⟨x, hx, rfl⟩) k hk) h]
      rfl

/-! ## C1: the partition property of group-by

Generic development: a group-by fold whose bucket insertion appends the
new element whenever it is "fresh" for that bucket (`FreshP`) partitions
the inserted values — every bucket's contents is a sublist of the
traversal, and the concatenation of all buckets (in bucket
first-occurrence order, which is the order of the result `Map`) is a
permutation of the traversal. -/

theorem pairwise_trivial {α : Type} (l : List α) : l.Pairwise fun _ _ => True := by
  induction l with
  | nil => exact List.Pairwise.nil
  | cons a as ih => exact List.Pairwise.cons (fun _ _ => trivial) ih

theorem string_eq_of_data_eq {s t : String} (h : s.data = t.data) : s = t := by
  cases s
  cases t
  exact congrArg String.mk h

/-- Array-index strings are determined by their numeric value (print/parse
round trip). -/
theorem arrayIndex_inj {a b : String} (ha : isArrayIndex a = true)
    (hb : isArrayIndex b = true) (h : keyNat a = keyNat b) : a = b := by
  rw [isArrayIndex, Bool.and_eq_true, decide_eq_true_eq, decide_eq_true_eq] at ha hb
  exact string_eq_of_data_eq (ha.1 ▸ hb.1 ▸ congrArg natDigits h)

theorem setAdd_append {α : Type} [DecidableEq α] (b : List α) (v : α)
    (h : ∀ u ∈ b, u ≠ v) : setAdd b v = b ++ [v] := by
  rw [setAdd, if_neg]
  intro hv
  exact h v hv rfl

theorem mapSetPair_append {α : Type} [DecidableEq α] (b : List (α × α)) (kv : α × α)
    (h : ∀ u ∈ b, u.1 ≠ kv.1) : mapSetPair b kv = b ++ [kv] := by
  induction b with
  | nil => rfl
  | cons u rest ih =>
    obtain ⟨k', v'⟩ := u
    rw [mapSetPair, if_neg (h (k', v') (by simp)), List.cons_append,
      ih fun u hu => h u (by simp [hu])]

theorem insertIntKey_append {α : Type} (b : List (String × α)) (kv : String × α)
    (hkv : isArrayIndex kv.1 = true)
    (h : ∀ u ∈ b, u.1 ≠ kv.1 ∧ jsKeyLt kv.1 u.1 = false) :
    insertIntKey b kv = b ++ [kv] := by
  induction b with
  | nil => rfl
  | cons u rest ih =>
    obtain ⟨hne, hlt⟩ := h u (by simp)
    rw [jsKeyLt, hkv] at hlt
    simp only [Bool.true_and, Bool.or_eq_false_iff, Bool.not_eq_true',
      Bool.and_eq_false_iff, decide_eq_false_iff_not] at hlt
    have hu : isArrayIndex u.1 = true := by
      simpa using hlt.1
    have hle : ¬ keyNat kv.1 < keyNat u.1 := by
      rcases hlt.2 with h' | h'
      · rw [hu] at h'; simp at h'
      · exact h'
    have hne' : keyNat u.1 ≠ keyNat kv.1 := fun hEq =>
      hne (arrayIndex_inj hu hkv hEq)
    have hcond : (isArrayIndex u.1 && decide (keyNat u.1 < keyNat kv.1)) = true := by
      rw [hu]
      simp only [Bool.true_and, decide_eq_true_eq]
      omega
    obtain ⟨k', v'⟩ := u
    rw [insertIntKey, if_pos hcond, List.cons_append,
      ih fun w hw => h w (by simp [hw])]

theorem objSetProp_append {α : Type} (b : List (String × α)) (kv : String × α)
    (hp : kv.1 ≠ "__proto__")
    (h : ∀ u ∈ b, u.1 ≠ kv.1 ∧ jsKeyLt kv.1 u.1 = false) :
    objSetProp b kv = b ++ [kv] := by
  have hkey : hasKeyStr b kv.1 = false := by
    rw [← Bool.not_eq_true, hasKeyStr_iff_mem]
    intro hm
    rcases List.mem_map.mp hm with ⟨u, hu, hfst⟩
    exact (h u hu).1 hfst
  rw [objSetProp, hkey]
  simp only [Bool.false_eq_true, if_false, if_neg hp, objInsertNew]
  by_cases hi : isArrayIndex kv.1 = true
  · rw [hi, if_pos rfl]
    exact insertIntKey_append b kv hi h
  · rw [Bool.not_eq_true] at hi
    rw [hi]
    simp

theorem assocUpdate_join {κ B μ : Type} [DecidableEq κ] (contents : B → List μ)
    (ins : B → μ → B) (v : μ) (FreshP : μ → μ → Prop)
    (hins : ∀ b, (∀ u ∈ contents b, FreshP u v) → contents (ins b v) = contents b ++ [v]) :
    ∀ (ret : List (κ × B)) (k : κ), hasKeyK ret k = true →
      (∀ e ∈ ret, ∀ u ∈ contents e.2, FreshP u v) →
      List.Perm (((assocUpdate ret k fun b => ins b v).map fun e => contents e.2).flatten)
        (((ret.map fun e => contents e.2).flatten) ++ [v]) := by
  intro ret
  induction ret with
  | nil => intro k hk; simp [hasKeyK] at hk
  | cons p rest ih =>
    obtain ⟨k', b⟩ := p
    intro k hk hfr
    by_cases hkk : k' = k
    · rw [assocUpdate, if_pos hkk]
      simp only [List.map_cons, List.flatten_cons]
      rw [hins b fun u hu => hfr (k', b) (by simp) u hu]
      simp only [List.append_assoc]
      exact List.Perm.append_left _ List.perm_append_comm
    · have hk' : hasKeyK rest k = true := by
        simpa [hasKeyK, hkk] using hk
      rw [assocUpdate, if_neg hkk]
      simp only [List.map_cons, List.flatten_cons, List.append_assoc]
      exact List.Perm.append_left _
        (ih k hk' fun e he u hu => hfr e (by simp [he]) u hu)

theorem assocUpdate_sub {κ B μ : Type} [DecidableEq κ] (contents : B → List μ)
    (ins : B → μ → B) (v : μ) (FreshP : μ → μ → Prop)
    (hins : ∀ b, (∀ u ∈ contents b, FreshP u v) → contents (ins b v) = contents b ++ [v]) :
    ∀ (ret : List (κ × B)) (k : κ) (processed : List μ),
      (∀ e ∈ ret, List.Sublist (contents e.2) processed) →
      (∀ e ∈ ret, ∀ u ∈ contents e.2, FreshP u v) →
      ∀ e ∈ assocUpdate ret k fun b => ins b v,
        List.Sublist (contents e.2) (processed ++ [v]) := by
  intro ret
  induction ret with
  | nil => intro k processed _ _ e he; simp [assocUpdate] at he
  | cons p rest ih =>
    obtain ⟨k', b⟩ := p
    intro k processed hsub hfr e he
    by_cases hkk : k' = k
    · rw [assocUpdate, if_pos hkk] at he
      rcases List.mem_cons.mp he with he | he
      · rw [he]
        simp only
        rw [hins b fun u hu => hfr (k', b) (by simp) u hu]
        exact (hsub (k', b) (by simp)).append_right [v]
      · exact ((hsub e (by simp [he])).trans (List.sublist_append_left processed [v]))
    · rw [assocUpdate, if_neg hkk] at he
      rcases List.mem_cons.mp he with he | he
      · rw [he]
        exact ((hsub (k', b) (by simp)).trans (List.sublist_append_left processed [v]))
      · exact ih k processed (fun x hx => hsub x (by simp [hx]))
          (fun x hx u hu => hfr x (by simp [hx]) u hu) e he

theorem groupItems_partition_aux {κ B μ : Type} [DecidableEq κ] (contents : B → List μ)
    (FreshP : μ → μ → Prop) (VOk : μ → Prop) (ins : B → μ → B) (mk : μ → B)
    (hins : ∀ b v, VOk v → (∀ u ∈ contents b, FreshP u v) →
      contents (ins b v) = contents b ++ [v])
    (hmk : ∀ v, contents (mk v) = [v]) :
    ∀ (items : List (κ × μ)) (ret : List (κ × B)) (processed : List μ),
      (∀ e ∈ ret, List.Sublist (contents e.2) processed) →
      (List.Perm ((ret.map fun e => contents e.2).flatten) processed) →
      (∀ p ∈ items, ∀ u ∈ processed, FreshP u p.2) →
      (∀ p ∈ items, VOk p.2) →
      items.Pairwise (fun a b => FreshP a.2 b.2) →
      (∀ e ∈ groupItems ins mk items ret,
          List.Sublist (contents e.2) (processed ++ items.map Prod.snd)) ∧
      (List.Perm (((groupItems ins mk items ret).map fun e => contents e.2).flatten)
        (processed ++ items.map Prod.snd)) := by
  intro items
  induction items with
  | nil =>
    intro ret processed hsub hjoin _ _ _
    constructor
    · intro e he
      simpa using hsub e he
    · simpa using hjoin
  | cons p rest ih =>
    obtain ⟨k, v⟩ := p
    intro ret processed hsub hjoin hfresh hvok hpw
    have hv : VOk v := hvok (k, v) (by simp)
    have hstep : groupItems ins mk ((k, v) :: rest) ret =
        groupItems ins mk rest (groupStep ins mk ret (k, v)) := rfl
    have hfr : ∀ e ∈ ret, ∀ u ∈ contents e.2, FreshP u v := fun e he u hu =>
      hfresh (k, v) (by simp) u ((hsub e he).subset hu)
    have hsub' : ∀ e ∈ groupStep ins mk ret (k, v),
        List.Sublist (contents e.2) (processed ++ [v]) := by
      rw [groupStep]
      split
      · exact assocUpdate_sub contents ins v FreshP (fun b => hins b v hv) ret k processed
          hsub hfr
      · intro e he
        rcases List.mem_append.mp he with he | he
        · exact ((hsub e he).trans (List.sublist_append_left processed [v]))
        · simp only [List.mem_singleton] at he
          rw [he]
          simp only
          rw [hmk v]
          exact List.sublist_append_right processed [v]
    have hjoin' : List.Perm (((groupStep ins mk ret (k, v)).map fun e => contents e.2).flatten)
        (processed ++ [v]) := by
      rw [groupStep]
      split
      next hk =>
        exact (assocUpdate_join contents ins v FreshP (fun b => hins b v hv) ret k hk
          hfr).trans (hjoin.append_right [v])
      next hk =>
        rw [List.map_append, List.flatten_append]
        simp only [List.map_cons, List.map_nil, List.flatten_cons, List.flatten_nil, hmk v,
          List.append_nil]
        exact hjoin.append_right [v]
    have hfresh' : ∀ p ∈ rest, ∀ u ∈ processed ++ [v], FreshP u p.2 := by
      intro p hp u hu
      rcases List.mem_append.mp hu with hu | hu
      · exact hfresh p (by simp [hp]) u hu
      · simp only [List.mem_singleton] at hu
        rw [hu]
        exact (List.pairwise_cons.mp hpw).1 p hp
    have := ih (groupStep ins mk ret (k, v)) (processed ++ [v]) hsub' hjoin' hfresh'
      (fun p hp => hvok p (by simp [hp])) (List.pairwise_cons.mp hpw).2
    rw [hstep]
    simpa [List.append_assoc] using this

theorem mem_enumFrom_snd {α : Type} :
    ∀ (l : List α) (n : Nat) (x : Nat × α), x ∈ l.enumFrom n → x.2 ∈ l := by
  intro l
  induction l with
  | nil => intro n x h; simp [List.enumFrom] at h
  | cons a as ih =>
    intro n x h
    simp only [List.enumFrom] at h
    rcases List.mem_cons.mp h with h | h
    · rw [h]; simp
    · exact List.mem_cons_of_mem _ (ih (n + 1) x h)

theorem pairwise_enumFrom {α : Type} {R : α → α → Prop} :
    ∀ (l : List α) (n : Nat), l.Pairwise R →
      (l.enumFrom n).Pairwise fun a b => R a.2 b.2 := by
  intro l
  induction l with
  | nil => intro n _; simp [List.enumFrom]
  | cons a as ih =>
    intro n h
    rcases List.pairwise_cons.mp h with ⟨ha, hrest⟩
    simp only [List.enumFrom]
    exact List.Pairwise.cons (fun x hx => ha x.2 (mem_enumFrom_snd as (n + 1) x hx))
      (ih (n + 1) hrest)

theorem pairwise_enum {α : Type} {R : α → α → Prop} (l : List α) (h : l.Pairwise R) :
    l.enum.Pairwise fun a b => R a.2 b.2 :=
  pairwise_enumFrom l 0 h

/-- Partition property, array sources. -/
theorem groupBy_partition_arr {α κ : Type} [DecidableEq α] [DecidableEq κ]
    (l : List α) (fn : EltArg α → κ) :
    List.Perm
      (((groupByWithMap (Struct.arr l) fn (idProj α)).map fun e => e.2.seqElts).flatten) l ∧
    ∀ e ∈ groupByWithMap (Struct.arr l) fn (idProj α), List.Sublist e.2.seqElts l := by
  have hsnd : (arrItems l fn (idProj α)).map Prod.snd = l := by
    rw [arrItems, List.map_map]
    have hc : (Prod.snd ∘ fun iv : Nat × α =>
        (fn (.arrElt iv.2 iv.1), (idProj α).onVal iv.2)) = Prod.snd := by
      funext iv; rfl
    rw [hc, List.enum_map_snd]
  have aux := groupItems_partition_aux (fun b : List α => b) (fun _ _ => True)
    (fun _ => True) (fun b v => b ++ [v]) (fun v => [v]) (fun b v _ _ => rfl) (fun v => rfl)
    (arrItems l fn (idProj α)) [] [] (by simp) (by simp) (by simp) (by simp)
    (pairwise_trivial _)
  rw [hsnd] at aux
  simp only [List.nil_append] at aux
  constructor
  · have h2 := aux.2
    simp only [groupByWithMap, List.map_map]
    simpa [Function.comp, Struct.seqElts] using h2
  · intro e he
    simp only [groupByWithMap, List.mem_map] at he
    obtain ⟨x, hx, rfl⟩ := he
    simpa [Struct.seqElts] using aux.1 x hx

/-- Partition property, Set sources (distinct elements). -/
theorem groupBy_partition_set {α κ : Type} [DecidableEq α] [DecidableEq κ]
    (l : List α) (fn : EltArg α → κ) (hnd : l.Nodup) :
    List.Perm
      (((groupByWithMap (Struct.set l) fn (idProj α)).map fun e => e.2.seqElts).flatten) l ∧
    ∀ e ∈ groupByWithMap (Struct.set l) fn (idProj α), List.Sublist e.2.seqElts l := by
  have hsnd : (setItems l fn (idProj α)).map Prod.snd = l := by
    rw [setItems, List.map_map]
    have hc : (Prod.snd ∘ fun v : α => (fn (.setElt v), (idProj α).onVal v)) =
        fun v : α => v := by
      funext v; rfl
    rw [hc, List.map_id']
  have hpw : (setItems l fn (idProj α)).Pairwise fun a b => a.2 ≠ b.2 := by
    rw [setItems]
    exact List.pairwise_map.mpr hnd
  have aux := groupItems_partition_aux (fun b : List α => b) (fun u v => u ≠ v)
    (fun _ => True) setAdd (fun v => [v]) (fun b v _ h => setAdd_append b v h) (fun v => rfl)
    (setItems l fn (idProj α)) [] [] (by simp) (by simp) (by simp) (by simp) hpw
  rw [hsnd] at aux
  simp only [List.nil_append] at aux
  constructor
  · have h2 := aux.2
    simp only [groupByWithMap, List.map_map]
    simpa [Function.comp, Struct.seqElts] using h2
  · intro e he
    simp only [groupByWithMap, List.mem_map] at he
    obtain ⟨x, hx, rfl⟩ := he
    simpa [Struct.seqElts] using aux.1 x hx

/-- Partition property, Map sources (distinct keys). -/
theorem groupBy_partition_map {α κ : Type} [DecidableEq α] [DecidableEq κ]
    (l : List (α × α)) (fn : EltArg α → κ) (hnd : (l.map Prod.fst).Nodup) :
    List.Perm
      (((groupByWithMap (Struct.map l) fn (idProj α)).map fun e => e.2.mapElts).flatten) l ∧
    ∀ e ∈ groupByWithMap (Struct.map l) fn (idProj α), List.Sublist e.2.mapElts l := by
  have hsnd : (mapItems l fn (idProj α)).map Prod.snd = l := by
    rw [mapItems, List.map_map]
    have hc : (Prod.snd ∘ fun kv : α × α =>
        (fn (.mapElt kv.2 kv.1), (idProj α).onMapPair (kv.1, kv.2))) =
        fun kv : α × α => kv := by
      funext kv; rfl
    rw [hc, List.map_id']
  have hnd' : l.Pairwise fun a b => a.1 ≠ b.1 := List.pairwise_map.mp hnd
  have hpw : (mapItems l fn (idProj α)).Pairwise fun a b => a.2.1 ≠ b.2.1 := by
    rw [mapItems]
    exact List.pairwise_map.mpr hnd'
  have aux := groupItems_partition_aux (fun b : List (α × α) => b) (fun u v => u.1 ≠ v.1)
    (fun _ => True) mapSetPair (fun kv => [kv]) (fun b kv _ h => mapSetPair_append b kv h)
    (fun kv => rfl)
    (mapItems l fn (idProj α)) [] [] (by simp) (by simp) (by simp) (by simp) hpw
  rw [hsnd] at aux
  simp only [List.nil_append] at aux
  constructor
  · have h2 := aux.2
    simp only [groupByWithMap, List.map_map]
    simpa [Function.comp, Struct.mapElts] using h2
  · intro e he
    simp only [groupByWithMap, List.mem_map] at he
    obtain ⟨x, hx, rfl⟩ := he
    simpa [Struct.mapElts] using aux.1 x hx

/-- Partition property, record sources (distinct keys, entries in JS
enumeration order). -/
theorem groupBy_partition_record {α κ : Type} [DecidableEq α] [DecidableEq κ]
    (l : List (String × α)) (fn : EltArg α → κ) (hnd : (l.map Prod.fst).Nodup)
    (hcanon : JsCanonical l) (hproto : "__proto__" ∉ l.map Prod.fst) :
    List.Perm
      (((groupByWithMap (Struct.record l) fn (idProj α)).map fun e => e.2.recElts).flatten)
      l ∧
    ∀ e ∈ groupByWithMap (Struct.record l) fn (idProj α), List.Sublist e.2.recElts l := by
  have hsnd : (recItems l fn (idProj α)).map Prod.snd = l := by
    rw [recItems, List.map_map]
    have hc : (Prod.snd ∘ fun ikv : Nat × (String × α) =>
        (fn (.entryElt ikv.2.1 ikv.2.2 ikv.1), (idProj α).onRecEntry ikv.2)) = Prod.snd := by
      funext ikv; rfl
    rw [hc, List.enum_map_snd]
  have hfr : l.Pairwise fun u v => u.1 ≠ v.1 ∧ jsKeyLt v.1 u.1 = false :=
    (List.pairwise_map.mp hnd).and hcanon
  have hpw : (recItems l fn (idProj α)).Pairwise
      fun a b => a.2.1 ≠ b.2.1 ∧ jsKeyLt b.2.1 a.2.1 = false := by
    rw [recItems]
    exact List.pairwise_map.mpr (pairwise_enum l hfr)
  have hvok : ∀ p ∈ recItems l fn (idProj α), p.2.1 ≠ "__proto__" := by
    intro p hp
    rw [recItems] at hp
    rcases List.mem_map.mp hp with ⟨ikv, hik, rfl⟩
    intro hEq
    exact hproto (hEq ▸ List.mem_map.mpr ⟨ikv.2, mem_enumFrom_snd l 0 ikv hik, rfl⟩)
  have aux := groupItems_partition_aux (fun b : List (String × α) => b)
    (fun u v => u.1 ≠ v.1 ∧ jsKeyLt v.1 u.1 = false)
    (fun kv => kv.1 ≠ "__proto__")
    objSetProp (fun kv => [kv]) (fun b kv hv h => objSetProp_append b kv hv h)
    (fun kv => rfl)
    (recItems l fn (idProj α)) [] [] (by simp) (by simp) (by simp) hvok hpw
  rw [hsnd] at aux
  simp only [List.nil_append] at aux
  constructor
  · have h2 := aux.2
    simp only [groupByWithMap, List.map_map]
    simpa [Function.comp, Struct.recElts] using h2
  · intro e he
    simp only [groupByWithMap, List.mem_map] at he
    obtain ⟨x, hx, rfl⟩ := he
    simpa [Struct.recElts] using aux.1 x hx

/-- C1 (amended): **Partition property of `groupBy`** (`groupByWithMap`
with the default projection).  Concatenating the per-bucket collections in
bucket first-occurrence order (the order of the result `Map`) yields
exactly the elements of the source — a permutation, each element exactly
once — and for array, Map, and record sources every bucket is a sublist
of the source's traversal order (relative order preserved).  Set elements
and Map/record keys are distinct in the runtime containers (hypotheses),
and a record's entries are listed in JS enumeration order
(`JsCanonical`).  For record sources the property additionally requires
that no key is `"__proto__"`: the bucket write `bucket["__proto__"] = v`
runs the inherited setter and silently drops the entry whenever its
bucket already exists (see the counterexample). -/
theorem groupBy_partition {α κ : Type} [DecidableEq α] [DecidableEq κ] :
    (∀ (l : List α) (fn : EltArg α → κ),
      List.Perm
        (((groupByWithMap (Struct.arr l) fn (idProj α)).map fun e => e.2.seqElts).flatten)
        l ∧
      ∀ e ∈ groupByWithMap (Struct.arr l) fn (idProj α), List.Sublist e.2.seqElts l) ∧
    (∀ (l : List α) (fn : EltArg α → κ), l.Nodup →
      List.Perm
        (((groupByWithMap (Struct.set l) fn (idProj α)).map fun e => e.2.seqElts).flatten)
        l) ∧
    (∀ (l : List (α × α)) (fn : EltArg α → κ), (l.map Prod.fst).Nodup →
      List.Perm
        (((groupByWithMap (Struct.map l) fn (idProj α)).map fun e => e.2.mapElts).flatten)
        l ∧
      ∀ e ∈ groupByWithMap (Struct.map l) fn (idProj α), List.Sublist e.2.mapElts l) ∧
    (∀ (l : List (String × α)) (fn : EltArg α → κ),
      (l.map Prod.fst).Nodup → JsCanonical l → "__proto__" ∉ l.map Prod.fst →
      List.Perm
        (((groupByWithMap (Struct.record l) fn (idProj α)).map fun e => e.2.recElts).flatten)
        l ∧
      ∀ e ∈ groupByWithMap (Struct.record l) fn (idProj α), List.Sublist e.2.recElts l) :=
  ⟨fun l fn => groupBy_partition_arr l fn,
   fun l fn hnd => (groupBy_partition_set l fn hnd).1,
   fun l fn hnd => groupBy_partition_map l fn hnd,
   fun l fn hnd hcanon hproto => groupBy_partition_record l fn hnd hcanon hproto⟩

/-- Witness for `groupBy_partition`: concrete Set, Map, and record sources
(with an array-index record key, exercising the enumeration order). -/
theorem groupBy_partition_witness :
    List.Perm
      (((groupByWithMap (Struct.set [1, 2, 3]) (fun a =>
          match a with | .setElt v => v % 2 | _ => 0) (idProj Nat)).map
        fun e => e.2.seqElts).flatten) [1, 2, 3] ∧
    List.Perm
      (((groupByWithMap (Struct.map [(1, 10), (2, 21)]) (fun a =>
          match a with | .mapElt v _ => v % 2 | _ => 0) (idProj Nat)).map
        fun e => e.2.mapElts).flatten) [(1, 10), (2, 21)] ∧
    List.Perm
      (((groupByWithMap (Struct.record [("2", 5), ("b", 1), ("c", 8)]) (fun a =>
          match a with | .entryElt _ v _ => v % 2 | _ => 0) (idProj Nat)).map
        fun e => e.2.recElts).flatten) [("2", 5), ("b", 1), ("c", 8)] :=
  ⟨(groupBy_partition.2.1 [1, 2, 3] _ (by decide)),
   (groupBy_partition.2.2.1 [(1, 10), (2, 21)] _ (by decide)).1,
   (groupBy_partition.2.2.2 [("2", 5), ("b", 1), ("c", 8)] _ (by decide) (by decide)
     (by decide)).1⟩

/-- C1 counterexample: the record source `{a: 1, __proto__: 2}` (an own
`__proto__` key, as produced by `JSON.parse`) with a constant classifier —
the source satisfies the runtime container invariants (distinct keys, JS
enumeration order), yet the second entry's bucket write
`bucket["__proto__"] = 2` runs the inherited setter and the entry is
dropped: the concatenated buckets are not a permutation of the source. -/
theorem groupBy_partition_counterexample :
    ((["a", "__proto__"] : List String).Nodup ∧
      JsCanonical [("a", (1 : Nat)), ("__proto__", 2)]) ∧
    ¬ List.Perm
      (((groupByWithMap (Struct.record [("a", 1), ("__proto__", 2)]) (fun _ => (0 : Nat))
          (idProj Nat)).map fun e => e.2.recElts).flatten)
      [("a", 1), ("__proto__", 2)] := by
  refine ⟨⟨by decide, by decide⟩, by decide⟩

/-- A throwing classifier for the C8 witness. -/
def c8fn : EltArg Nat → Except String Nat :=
  fun a =>
    match a with
    | .arrElt v _ => if v = 2 then .error "boom" else .ok v
    | _ => .ok 0

def c8fnS : EltArg Nat → Except String String :=
  fun a =>
    match a with
    | .arrElt v _ => if v = 2 then .error "boom" else .ok "k"
    | _ => .ok "k"

/-- A non-throwing projection for the C8 witness. -/
def c8pr : ProjFnsE Nat String :=
  ⟨fun v => .ok v, fun kv => .ok kv, fun kv => .ok kv⟩

/-- Witness for `aggregators_fail_fast`: on `[1, 2, 3]` with a classifier
throwing `"boom"` on `2` (bucket key `"k"`, an ordinary string), all four
aggregators return that exception. -/
theorem aggregators_fail_fast_witness :
    countByWithMapE (Struct.arr [1, 2, 3]) c8fn = .error "boom" ∧
    countByWithObjE (Struct.arr [1, 2, 3]) c8fnS = .error "boom" ∧
    groupByWithMapE (Struct.arr [1, 2, 3]) c8fn c8pr = .error "boom" ∧
    groupByWithObjE (Struct.arr [1, 2, 3]) c8fnS c8pr = .error (.user "boom") :=
  ⟨(@aggregators_fail_fast Nat Nat String _ _).1 (Struct.arr [1, 2, 3]) c8fn "boom" rfl,
   (@aggregators_fail_fast Nat Nat String _ _).2.1 (Struct.arr [1, 2, 3]) c8fnS "boom" rfl,
   (@aggregators_fail_fast Nat Nat String _ _).2.2.1 (Struct.arr [1, 2, 3]) c8fn c8pr "boom" rfl,
   (@aggregators_fail_fast Nat Nat String _ _).2.2.2 (Struct.arr [1, 2, 3]) c8fnS c8pr "boom"
     (by
       intro a ha k hk
       fin_cases ha <;> simp [c8fnS] at hk <;> simp [← hk, isProtoKey, isProtoDataKey, protoDataKeys])
     rfl⟩

/-- The C8 counterexample classifier: bucket key `"toString"` on the first
element, a thrown `"boom"` on the second. -/
def c8cfn : EltArg Nat → Except String String :=
  fun a =>
    match a with
    | .arrElt v _ => if v = 20 then .error "boom" else .ok "toString"
    | _ => .ok "k"

/-- C8 counterexample: on the array `[10, 20]` the callbacks alone first
classify `10` as `"toString"` and then throw `"boom"` at `20`; but the real
call performs `ret["toString"].push(10)` on the inherited function right
after the first classification, which throws a `TypeError` — the
propagated exception is not the classifier's: the claim is false as stated
for `groupByWithObj`. -/
theorem aggregators_fail_fast_counterexample :
    groupCallbacksOf (Struct.arr [10, 20]) c8cfn c8pr = .error "boom" ∧
    groupByWithObjE (Struct.arr [10, 20]) c8cfn c8pr ≠ .error (.user "boom") := by
  constructor
  · rfl
  · intro hcontra
    rw [show groupByWithObjE (Struct.arr [10, 20]) c8cfn c8pr =
        .error .typeErr from rfl] at hcontra
    simp at hcontra

end Mylib
